import Mathlib

/-!
Verification of the litellm-config-generator core: the cross-region model
identity catalog and resolver (`src/types/models.ts`), the AWS Bedrock and
Gemini expansion engines (`src/providers/aws.ts`, `src/providers/gemini.ts`),
the core entry registry (`src/models/model-builder.ts`), and the fluent
builder's deferred auto-commit convention (`src/builders/model-builder.ts`).

The embedding is shallow: TypeScript functions become Lean functions over the
same data, object spreads become ordered map merges, and the identifier
catalog (externally fetched generated data) is a parameter `cat : List
String`. A JS record that may lack a key is a map into `Option`; reading a
property of an absent (undefined) record value throws a TypeError, modelled
as an error outcome. A mutating call that can throw returns a `JsResult`
carrying the state at the throw point, since pushes performed before the
throw are retained by the shared registry.
-/

set_option maxHeartbeats 1000000

namespace LCG

/-! ## JS string primitives

`String.prototype.startsWith` and `String.prototype.substring(3)` modelled on
the character list underlying a Lean `String`. -/

/-- Boolean prefix test on character lists. -/
def listIsPrefix : List Char → List Char → Bool
  | [], _ => true
  | _ :: _, [] => false
  | a :: as, b :: bs => if a = b then listIsPrefix as bs else false

/-- Model of JS `s.startsWith(p)`. -/
def strStartsWith (s p : String) : Bool :=
  listIsPrefix p.data s.data

/-- Model of JS `s.substring(n)` (drop the first `n` characters). -/
def strDrop (s : String) (n : Nat) : String :=
  ⟨s.data.drop n⟩

/-- Model of the JS idiom `a || b` on strings/nullable strings: a missing or
empty (falsy) string falls back to `b`. -/
def jsOrString (a : Option String) (b : String) : String :=
  match a with
  | some s => if s = "" then b else s
  | none => b

/-- Model of the JS idiom `a || null` on a nullable string: a missing or
empty (falsy) string becomes `null`. -/
def jsOrNull (a : Option String) : Option String :=
  match a with
  | some s => if s = "" then none else some s
  | none => none

theorem listIsPrefix_iff (p l : List Char) :
    listIsPrefix p l = true ↔ ∃ t, l = p ++ t := by
  induction p generalizing l with
  | nil =>
    simp [listIsPrefix]
  | cons a as ih =>
    cases l with
    | nil =>
      simp [listIsPrefix]
    | cons b bs =>
      simp only [listIsPrefix]
      by_cases h : a = b
      · subst h
        rw [if_pos rfl, ih]
        constructor
        · rintro ⟨t, rfl⟩; exact ⟨t, rfl⟩
        · rintro ⟨t, ht⟩
          injection ht with _ h2
          exact ⟨t, h2⟩
      · rw [if_neg h]
        constructor
        · intro hf; cases hf
        · rintro ⟨t, ht⟩
          injection ht with h1 _
          exact absurd h1.symm h

theorem strStartsWith_iff (s p : String) :
    strStartsWith s p = true ↔ ∃ t : List Char, s.data = p.data ++ t := by
  simp [strStartsWith, listIsPrefix_iff]

theorem strStartsWith_append (p b : String) :
    strStartsWith (p ++ b) p = true := by
  rw [strStartsWith_iff]
  exact ⟨b.data, String.data_append p b⟩

theorem strDrop_append (p b : String) :
    strDrop (p ++ b) p.data.length = b := by
  apply String.ext
  show ((p ++ b).data).drop p.data.length = b.data
  rw [String.data_append, List.drop_append_of_le_length (le_refl _), List.drop_length,
    List.nil_append]

theorem eq_append_of_startsWith {s p : String} (h : strStartsWith s p = true) :
    s = p ++ strDrop s p.data.length := by
  rw [strStartsWith_iff] at h
  obtain ⟨t, ht⟩ := h
  apply String.ext
  rw [String.data_append]
  show s.data = p.data ++ (s.data.drop p.data.length)
  rw [ht, List.drop_append_of_le_length (le_refl _), List.drop_length, List.nil_append]

theorem string_append_left_cancel {p a b : String} (h : p ++ a = p ++ b) :
    a = b := by
  apply String.ext
  have := congrArg String.data h
  rw [String.data_append, String.data_append] at this
  exact List.append_cancel_left this

theorem eu_append_startsWith (b : String) :
    strStartsWith ("eu." ++ b) "eu." = true :=
  strStartsWith_append "eu." b

theorem us_append_startsWith (b : String) :
    strStartsWith ("us." ++ b) "us." = true :=
  strStartsWith_append "us." b

theorem eu_append_not_startsWith_us (b : String) :
    strStartsWith ("eu." ++ b) "us." = false := by
  by_contra h
  have h' : strStartsWith ("eu." ++ b) "us." = true := by
    cases hb : strStartsWith ("eu." ++ b) "us." with
    | false => exact absurd hb h
    | true => rfl
  rw [strStartsWith_iff] at h'
  obtain ⟨t, ht⟩ := h'
  rw [String.data_append] at ht
  have : 'e' = 'u' := by
    have h0 := congrArg (fun l => l.get? 0) ht
    simpa using h0
  exact absurd this (by decide)

theorem us_append_not_startsWith_eu (b : String) :
    strStartsWith ("us." ++ b) "eu." = false := by
  by_contra h
  have h' : strStartsWith ("us." ++ b) "eu." = true := by
    cases hb : strStartsWith ("us." ++ b) "eu." with
    | false => exact absurd hb h
    | true => rfl
  rw [strStartsWith_iff] at h'
  obtain ⟨t, ht⟩ := h'
  rw [String.data_append] at ht
  have : 'u' = 'e' := by
    have h0 := congrArg (fun l => l.get? 0) ht
    simpa using h0
  exact absurd this (by decide)

theorem eu_append_ne_us_append (b : String) : "eu." ++ b ≠ "us." ++ b := by
  intro h
  have := congrArg String.data h
  rw [String.data_append, String.data_append] at this
  have : 'e' = 'u' := by
    have h0 := congrArg (fun l => l.get? 0) this
    simpa using h0
  exact absurd this (by decide)

theorem string_ne_empty_of_data_cons {s : String} {c : Char} {t : List Char}
    (h : s.data = c :: t) : s ≠ "" := by
  intro he
  rw [he] at h
  exact absurd h (by simp [String.data])

theorem jsOrNull_some_of_ne {s : String} (h : s ≠ "") :
    jsOrNull (some s) = some s := by
  unfold jsOrNull
  show (if s = "" then none else some s) = some s
  rw [if_neg h]

/-! ## Model identity catalog and resolver (`src/types/models.ts`)

The Bedrock identifier catalog `bedrockModelIds` is generated data fetched
from AWS (its fetcher is outside the core); it appears here as the parameter
`cat : List String`. -/

/-- Result of `parseModelId`: the base id and whether a region tag was
stripped. -/
structure BaseModelId where
  id : String
  prefixed : Bool
deriving DecidableEq, Repr

/-- `parseModelId`: strips a leading `"eu."` or `"us."` region tag. -/
def parseModelId (modelId : String) : BaseModelId :=
  if strStartsWith modelId "eu." || strStartsWith modelId "us." then
    { id := strDrop modelId 3, prefixed := true }
  else
    { id := modelId, prefixed := false }

/-- The bare form of an identifier as computed throughout the source:
the stripped id when a region tag is present, the id itself otherwise. -/
def bareOf (modelId : String) : String :=
  let parsed := parseModelId modelId
  if parsed.prefixed then parsed.id else modelId

theorem parseModelId_of_eu {x : String} (h : strStartsWith x "eu." = true) :
    parseModelId x = ⟨strDrop x 3, true⟩ := by
  unfold parseModelId
  rw [h, Bool.true_or, if_pos rfl]

theorem parseModelId_of_us {x : String} (h : strStartsWith x "us." = true) :
    parseModelId x = ⟨strDrop x 3, true⟩ := by
  unfold parseModelId
  rw [h, Bool.or_true, if_pos rfl]

theorem parseModelId_of_bare {x : String} (heu : strStartsWith x "eu." = false)
    (hus : strStartsWith x "us." = false) :
    parseModelId x = ⟨x, false⟩ := by
  unfold parseModelId
  rw [heu, hus, Bool.or_self, if_neg (by simp)]

theorem bool_eq_false_of_ne_true {c : Bool} (h : ¬c = true) : c = false := by
  cases c with
  | false => rfl
  | true => exact absurd rfl h

theorem parseModelId_id_eq_bareOf (x : String) : (parseModelId x).id = bareOf x := by
  unfold bareOf
  by_cases h : (parseModelId x).prefixed = true
  · rw [if_pos h]
  · rw [if_neg h]
    unfold parseModelId at h ⊢
    by_cases hc : (strStartsWith x "eu." || strStartsWith x "us.") = true
    · rw [if_pos hc] at h
      exact absurd rfl h
    · rw [if_neg hc]

theorem bareOf_of_unprefixed {x : String}
    (h : (parseModelId x).prefixed = false) : bareOf x = x := by
  simp [bareOf, h]

theorem not_startsWith_eu_of_unprefixed {x : String}
    (h : (parseModelId x).prefixed = false) : strStartsWith x "eu." = false := by
  cases he : strStartsWith x "eu." with
  | false => rfl
  | true =>
      rw [parseModelId_of_eu he] at h
      cases h

theorem not_startsWith_us_of_unprefixed {x : String}
    (h : (parseModelId x).prefixed = false) : strStartsWith x "us." = false := by
  cases hu : strStartsWith x "us." with
  | false => rfl
  | true =>
      rw [parseModelId_of_us hu] at h
      cases h

theorem strDrop3_eu_append (b : String) : strDrop ("eu." ++ b) 3 = b :=
  strDrop_append "eu." b

theorem strDrop3_us_append (b : String) : strDrop ("us." ++ b) 3 = b :=
  strDrop_append "us." b

theorem parseModelId_eu_append (b : String) :
    parseModelId ("eu." ++ b) = { id := b, prefixed := true } := by
  rw [parseModelId_of_eu (eu_append_startsWith b), strDrop3_eu_append]

theorem parseModelId_us_append (b : String) :
    parseModelId ("us." ++ b) = { id := b, prefixed := true } := by
  rw [parseModelId_of_us (us_append_startsWith b), strDrop3_us_append]

theorem eu_append_ne_empty (b : String) : "eu." ++ b ≠ "" :=
  string_ne_empty_of_data_cons (c := 'e') (t := 'u' :: '.' :: b.data)
    (by rw [String.data_append]; rfl)

theorem us_append_ne_empty (b : String) : "us." ++ b ≠ "" :=
  string_ne_empty_of_data_cons (c := 'u') (t := 's' :: '.' :: b.data)
    (by rw [String.data_append]; rfl)

/-! ### The `crisModelMap` record

A JS `Record<string, {eu?, us?}>` can lack a key entirely, so the map is
`Option`-valued; `none` is JS `undefined`. -/

/-- One value of the `crisModelMap` record: the regionally tagged variants
known for a base id. -/
structure CrisEntry where
  eu : Option String
  us : Option String
deriving DecidableEq, Repr

/-- The record value at `k` with the population loop's
`if (!crisModelMap[k]) crisModelMap[k] = {}` initialization applied: the
stored entry, or a fresh empty record. -/
def entryOrEmpty (m : String → Option CrisEntry) (k : String) : CrisEntry :=
  match m k with
  | some e => e
  | none => { eu := none, us := none }

/-- One step of the `bedrockModelIds.forEach` loop that populates
`crisModelMap`: a region-tagged id creates (or extends) the record at its
stripped base id. -/
def crisInsert (m : String → Option CrisEntry) (modelId : String) :
    String → Option CrisEntry :=
  let parsed := parseModelId modelId
  if parsed.prefixed then
    fun k =>
      if k = parsed.id then
        if strStartsWith modelId "eu." then
          some { entryOrEmpty m parsed.id with eu := some modelId }
        else
          some { entryOrEmpty m parsed.id with us := some modelId }
      else m k
  else m

/-- `crisModelMap`: maps base model ids to their regionally available
variants, built by iterating the catalog; ids never written stay absent. -/
def crisModelMap (cat : List String) : String → Option CrisEntry :=
  cat.foldl crisInsert (fun _ => none)

/-- The optional-chained read `m[b]?.eu` (none when the record is absent). -/
def crisEu (m : String → Option CrisEntry) (b : String) : Option String :=
  match m b with
  | some e => e.eu
  | none => none

/-- The optional-chained read `m[b]?.us`. -/
def crisUs (m : String → Option CrisEntry) (b : String) : Option String :=
  match m b with
  | some e => e.us
  | none => none

theorem entryOrEmpty_eu (m : String → Option CrisEntry) (k : String) :
    (entryOrEmpty m k).eu = crisEu m k := by
  unfold entryOrEmpty crisEu
  cases m k <;> rfl

theorem entryOrEmpty_us (m : String → Option CrisEntry) (k : String) :
    (entryOrEmpty m k).us = crisUs m k := by
  unfold entryOrEmpty crisUs
  cases m k <;> rfl

theorem crisInsert_cases (m : String → Option CrisEntry) (x : String) :
    crisInsert m x =
      if (parseModelId x).prefixed = true then
        (fun k =>
          if k = (parseModelId x).id then
            (if strStartsWith x "eu." = true then
              some { entryOrEmpty m (parseModelId x).id with eu := some x }
            else
              some { entryOrEmpty m (parseModelId x).id with us := some x })
          else m k)
      else m := rfl

theorem crisEu_crisInsert (m : String → Option CrisEntry) (x b : String) :
    crisEu (crisInsert m x) b = if x = "eu." ++ b then some x else crisEu m b := by
  by_cases heu : strStartsWith x "eu." = true
  · have hx : x = "eu." ++ strDrop x 3 := eq_append_of_startsWith heu
    simp only [crisEu, crisInsert_cases, parseModelId_of_eu heu, heu, if_true]
    by_cases hb : b = strDrop x 3
    · subst hb
      simp only [if_pos rfl, if_pos (show x = "eu." ++ strDrop x 3 from hx)]
      rw [if_true]
    · rw [if_neg hb, if_neg]
      intro hxb
      apply hb
      have : "eu." ++ strDrop x 3 = "eu." ++ b := by rw [← hx, hxb]
      exact (string_append_left_cancel this).symm
  · have heu' : strStartsWith x "eu." = false := bool_eq_false_of_ne_true heu
    have hne : x ≠ "eu." ++ b := by
      intro hxb
      rw [hxb, eu_append_startsWith] at heu'
      cases heu'
    rw [if_neg hne]
    by_cases hus : strStartsWith x "us." = true
    · simp only [crisEu, crisInsert_cases, parseModelId_of_us hus, heu', if_true,
        Bool.false_eq_true, if_false]
      by_cases hb : b = strDrop x 3
      · subst hb
        simp only [if_pos rfl]
        rw [if_true]
        exact entryOrEmpty_eu m (strDrop x 3)
      · rw [if_neg hb]
    · have hus' : strStartsWith x "us." = false := bool_eq_false_of_ne_true hus
      simp only [crisInsert_cases, parseModelId_of_bare heu' hus',
        Bool.false_eq_true, if_false]

theorem crisUs_crisInsert (m : String → Option CrisEntry) (x b : String) :
    crisUs (crisInsert m x) b = if x = "us." ++ b then some x else crisUs m b := by
  by_cases heu : strStartsWith x "eu." = true
  · have hne : x ≠ "us." ++ b := by
      intro hxb
      rw [hxb, us_append_not_startsWith_eu] at heu
      cases heu
    rw [if_neg hne]
    simp only [crisUs, crisInsert_cases, parseModelId_of_eu heu, heu, if_true]
    by_cases hb : b = strDrop x 3
    · subst hb
      simp only [if_pos rfl]
      rw [if_true]
      exact entryOrEmpty_us m (strDrop x 3)
    · rw [if_neg hb]
  · have heu' : strStartsWith x "eu." = false := bool_eq_false_of_ne_true heu
    by_cases hus : strStartsWith x "us." = true
    · have hx : x = "us." ++ strDrop x 3 := eq_append_of_startsWith hus
      simp only [crisUs, crisInsert_cases, parseModelId_of_us hus, heu', if_true,
        Bool.false_eq_true, if_false]
      by_cases hb : b = strDrop x 3
      · subst hb
        simp only [if_pos rfl, if_pos (show x = "us." ++ strDrop x 3 from hx)]
        rw [if_true]
      · rw [if_neg hb, if_neg]
        intro hxb
        apply hb
        have : "us." ++ strDrop x 3 = "us." ++ b := by rw [← hx, hxb]
        exact (string_append_left_cancel this).symm
    · have hus' : strStartsWith x "us." = false := bool_eq_false_of_ne_true hus
      have hne : x ≠ "us." ++ b := by
        intro hxb
        rw [hxb, us_append_startsWith] at hus'
        cases hus'
      rw [if_neg hne]
      simp only [crisInsert_cases, parseModelId_of_bare heu' hus',
        Bool.false_eq_true, if_false]

theorem crisModelMap_foldl_eu (cat : List String) (b : String) :
    ∀ init : String → Option CrisEntry,
      crisEu (cat.foldl crisInsert init) b =
        if "eu." ++ b ∈ cat then some ("eu." ++ b) else crisEu init b := by
  induction cat with
  | nil => intro init; simp
  | cons x xs ih =>
    intro init
    rw [List.foldl_cons, ih]
    by_cases hmem : "eu." ++ b ∈ xs
    · rw [if_pos hmem, if_pos (List.mem_cons_of_mem x hmem)]
    · rw [if_neg hmem, crisEu_crisInsert]
      by_cases hx : x = "eu." ++ b
      · subst hx
        rw [if_pos rfl, if_pos (List.mem_cons_self _ _)]
      · rw [if_neg hx, if_neg]
        intro h
        rcases List.mem_cons.mp h with h1 | h2
        · exact hx h1.symm
        · exact hmem h2

theorem crisModelMap_foldl_us (cat : List String) (b : String) :
    ∀ init : String → Option CrisEntry,
      crisUs (cat.foldl crisInsert init) b =
        if "us." ++ b ∈ cat then some ("us." ++ b) else crisUs init b := by
  induction cat with
  | nil => intro init; simp
  | cons x xs ih =>
    intro init
    rw [List.foldl_cons, ih]
    by_cases hmem : "us." ++ b ∈ xs
    · rw [if_pos hmem, if_pos (List.mem_cons_of_mem x hmem)]
    · rw [if_neg hmem, crisUs_crisInsert]
      by_cases hx : x = "us." ++ b
      · subst hx
        rw [if_pos rfl, if_pos (List.mem_cons_self _ _)]
      · rw [if_neg hx, if_neg]
        intro h
        rcases List.mem_cons.mp h with h1 | h2
        · exact hx h1.symm
        · exact hmem h2

theorem crisModelMap_crisEu (cat : List String) (b : String) :
    crisEu (crisModelMap cat) b =
      if "eu." ++ b ∈ cat then some ("eu." ++ b) else none := by
  rw [crisModelMap, crisModelMap_foldl_eu]
  by_cases h : "eu." ++ b ∈ cat
  · rw [if_pos h, if_pos h]
  · rw [if_neg h, if_neg h]
    rfl

theorem crisModelMap_crisUs (cat : List String) (b : String) :
    crisUs (crisModelMap cat) b =
      if "us." ++ b ∈ cat then some ("us." ++ b) else none := by
  rw [crisModelMap, crisModelMap_foldl_us]
  by_cases h : "us." ++ b ∈ cat
  · rw [if_pos h, if_pos h]
  · rw [if_neg h, if_neg h]
    rfl

theorem crisMap_entry_of_crisEu {m : String → Option CrisEntry} {b v : String}
    (h : crisEu m b = some v) : ∃ e, m b = some e ∧ e.eu = some v := by
  unfold crisEu at h
  cases hm : m b with
  | none => rw [hm] at h; cases h
  | some e => rw [hm] at h; exact ⟨e, rfl, h⟩

/-- `supportsCRIS`: after stripping any region tag, the base id must be
present in the map (JS truthiness of the record) with both regional variants
recorded. The three `!!`-conjuncts of the source appear in order. -/
def supportsCRIS (cat : List String) (modelId : String) : Bool :=
  let parsed := parseModelId modelId
  let baseId := if parsed.prefixed then parsed.id else modelId
  (crisModelMap cat baseId).isSome &&
    (crisEu (crisModelMap cat) baseId).isSome &&
    (crisUs (crisModelMap cat) baseId).isSome

theorem supportsCRIS_unfolded (cat : List String) (modelId : String) :
    supportsCRIS cat modelId =
      ((crisModelMap cat (bareOf modelId)).isSome &&
        (crisEu (crisModelMap cat) (bareOf modelId)).isSome &&
        (crisUs (crisModelMap cat) (bareOf modelId)).isSome) := rfl

theorem supportsCRIS_iff (cat : List String) (modelId : String) :
    supportsCRIS cat modelId = true ↔
      ("eu." ++ bareOf modelId) ∈ cat ∧ ("us." ++ bareOf modelId) ∈ cat := by
  rw [supportsCRIS_unfolded, Bool.and_eq_true, Bool.and_eq_true]
  rw [crisModelMap_crisEu, crisModelMap_crisUs]
  constructor
  · rintro ⟨⟨_, h1⟩, h2⟩
    constructor
    · by_cases h : ("eu." ++ bareOf modelId) ∈ cat
      · exact h
      · rw [if_neg h] at h1; cases h1
    · by_cases h : ("us." ++ bareOf modelId) ∈ cat
      · exact h
      · rw [if_neg h] at h2; cases h2
  · rintro ⟨h1, h2⟩
    refine ⟨⟨?_, ?_⟩, ?_⟩
    · obtain ⟨e, he, _⟩ := crisMap_entry_of_crisEu (v := "eu." ++ bareOf modelId)
        (by rw [crisModelMap_crisEu, if_pos h1])
      rw [he]
      rfl
    · rw [if_pos h1]
      rfl
    · rw [if_pos h2]
      rfl

/-- Evaluation of `supportsCRIS` at an unprefixed id with both variants. -/
theorem supportsCRIS_of_both {cat : List String} {b : String}
    (hb : (parseModelId b).prefixed = false)
    (heu : ("eu." ++ b) ∈ cat) (hus : ("us." ++ b) ∈ cat) :
    supportsCRIS cat b = true := by
  rw [supportsCRIS_iff, bareOf_of_unprefixed hb]
  exact ⟨heu, hus⟩

/-- At an unprefixed id, a positive `supportsCRIS` check certifies that the
map holds a record for that very id (the first `!!`-conjunct). -/
theorem supportsCRIS_isSome_of_unprefixed {cat : List String} {b : String}
    (hb : (parseModelId b).prefixed = false) (h : supportsCRIS cat b = true) :
    ∃ e, crisModelMap cat b = some e := by
  rw [supportsCRIS_unfolded, bareOf_of_unprefixed hb, Bool.and_eq_true,
    Bool.and_eq_true] at h
  exact Option.isSome_iff_exists.mp h.1.1

/-! ### The regional resolver -/

/-- The two supported AWS regions. -/
inductive AwsRegion where
  | eu
  | us
deriving DecidableEq, Repr

/-- The literal region string (`'eu'` / `'us'`). -/
def AwsRegion.str : AwsRegion → String
  | .eu => "eu"
  | .us => "us"

/-- Access `entry[region]` on a present record value. -/
def CrisEntry.get : CrisEntry → AwsRegion → Option String
  | e, .eu => e.eu
  | e, .us => e.us

theorem region_str_eu : AwsRegion.eu.str ++ "." = "eu." := rfl

theorem region_str_us : AwsRegion.us.str ++ "." = "us." := rfl

/-- The TypeError raised by reading a property of an undefined record value
(`crisModelMap[lookupId][region]` when `crisModelMap[lookupId]` is absent). -/
def typeErrorMsg : String :=
  "TypeError: Cannot read properties of undefined"

/-- `getRegionalModelId`: resolve a (possibly tagged) id for a target region.
When the eligibility check passes (it double-strips, so a doubly tagged input
can pass via its once-stripped form) but the map holds no record at the
once-stripped lookup id, the indexing throws a TypeError. -/
def getRegionalModelId (cat : List String) (baseId : String) (region : AwsRegion) :
    Except String (Option String) :=
  if strStartsWith baseId (region.str ++ ".") then
    .ok (some baseId)
  else
    let parsed := parseModelId baseId
    let lookupId := if parsed.prefixed then parsed.id else baseId
    if supportsCRIS cat lookupId then
      match crisModelMap cat lookupId with
      | none => .error typeErrorMsg
      | some e => .ok (jsOrNull (e.get region))
    else if parsed.prefixed then
      let newId := region.str ++ "." ++ parsed.id
      if cat.contains newId then .ok (some newId) else .ok none
    else
      .ok none

/-- The value of the resolver in its non-throwing cases (`none` substituted
in the throwing case; used only under hypotheses that exclude it). -/
def resolveOk (cat : List String) (baseId : String) (region : AwsRegion) :
    Option String :=
  match getRegionalModelId cat baseId region with
  | .ok o => o
  | .error _ => none

theorem resolveOk_of_ok {cat : List String} {baseId : String} {region : AwsRegion}
    {o : Option String} (h : getRegionalModelId cat baseId region = .ok o) :
    resolveOk cat baseId region = o := by
  unfold resolveOk
  rw [h]

/-- The spec's ModelIdentifier invariant for a single identifier: its bare
form (after stripping at most one region tag) carries no further region
tag. -/
def WfModelId (id : String) : Prop :=
  (parseModelId (bareOf id)).prefixed = false

instance (id : String) : Decidable (WfModelId id) := by
  unfold WfModelId
  exact inferInstance

theorem wf_of_unprefixed {x : String} (h : (parseModelId x).prefixed = false) :
    WfModelId x := by
  unfold WfModelId
  rw [bareOf_of_unprefixed h]
  exact h

/-- Resolver, case 1: an id already tagged for the target region is returned
unchanged. -/
theorem getRegionalModelId_already {cat : List String} {id : String}
    {region : AwsRegion} (hsw : strStartsWith id (region.str ++ ".") = true) :
    getRegionalModelId cat id region = .ok (some id) := by
  unfold getRegionalModelId
  rw [if_pos hsw]

/-- Resolver, case 2a: eligibility passes and the map holds a record at the
once-stripped lookup id — the record is indexed at the target region. -/
theorem getRegionalModelId_cris_defined {cat : List String} {id : String}
    {region : AwsRegion} {e : CrisEntry}
    (hsw : strStartsWith id (region.str ++ ".") = false)
    (hcris : supportsCRIS cat (bareOf id) = true)
    (hmap : crisModelMap cat (bareOf id) = some e) :
    getRegionalModelId cat id region = .ok (jsOrNull (e.get region)) := by
  have hlookup : (if (parseModelId id).prefixed = true then (parseModelId id).id else id)
      = bareOf id := rfl
  unfold getRegionalModelId
  rw [hsw]
  simp only [Bool.false_eq_true, if_false]
  rw [hlookup, hcris, if_pos rfl, hmap]

/-- Resolver, case 2b (the throwing case): eligibility passes via the second
strip but the map holds no record at the once-stripped lookup id — indexing
`undefined` throws. -/
theorem getRegionalModelId_cris_undefined {cat : List String} {id : String}
    {region : AwsRegion}
    (hsw : strStartsWith id (region.str ++ ".") = false)
    (hcris : supportsCRIS cat (bareOf id) = true)
    (hmap : crisModelMap cat (bareOf id) = none) :
    getRegionalModelId cat id region = .error typeErrorMsg := by
  have hlookup : (if (parseModelId id).prefixed = true then (parseModelId id).id else id)
      = bareOf id := rfl
  unfold getRegionalModelId
  rw [hsw]
  simp only [Bool.false_eq_true, if_false]
  rw [hlookup, hcris, if_pos rfl, hmap]

/-- Resolver, case 3: ineligible but tagged for a different region — the tag
is substituted and the result depends on catalog membership. -/
theorem getRegionalModelId_retag {cat : List String} {id : String}
    {region : AwsRegion}
    (hsw : strStartsWith id (region.str ++ ".") = false)
    (hcris : supportsCRIS cat (bareOf id) = false)
    (hp : (parseModelId id).prefixed = true) :
    getRegionalModelId cat id region =
      .ok (if cat.contains (region.str ++ "." ++ bareOf id) = true
           then some (region.str ++ "." ++ bareOf id) else none) := by
  have hlookup : (if (parseModelId id).prefixed = true then (parseModelId id).id else id)
      = bareOf id := rfl
  unfold getRegionalModelId
  rw [hsw]
  simp only [Bool.false_eq_true, if_false]
  rw [hlookup, hcris]
  simp only [Bool.false_eq_true, if_false]
  rw [hp, if_pos rfl, parseModelId_id_eq_bareOf]
  by_cases hm : cat.contains (region.str ++ "." ++ bareOf id) = true
  · rw [if_pos hm, if_pos hm]
  · rw [if_neg hm, if_neg hm]

/-- Resolver, case 4: ineligible and untagged — no variant is found. -/
theorem getRegionalModelId_miss {cat : List String} {id : String}
    {region : AwsRegion}
    (hsw : strStartsWith id (region.str ++ ".") = false)
    (hcris : supportsCRIS cat (bareOf id) = false)
    (hp : (parseModelId id).prefixed = false) :
    getRegionalModelId cat id region = .ok none := by
  have hlookup : (if (parseModelId id).prefixed = true then (parseModelId id).id else id)
      = bareOf id := rfl
  unfold getRegionalModelId
  rw [hsw]
  simp only [Bool.false_eq_true, if_false]
  rw [hlookup, hcris]
  simp only [Bool.false_eq_true, if_false]
  rw [hp]
  simp only [Bool.false_eq_true, if_false]

/-- The resolver throws exactly when the identifier is not already tagged for
the target region, its once-stripped form passes the eligibility check, and
the map holds no record at that once-stripped form. -/
theorem getRegionalModelId_error_iff (cat : List String) (id : String)
    (region : AwsRegion) :
    (∃ e, getRegionalModelId cat id region = .error e) ↔
      (strStartsWith id (region.str ++ ".") = false ∧
        supportsCRIS cat (bareOf id) = true ∧
        crisModelMap cat (bareOf id) = none) := by
  constructor
  · rintro ⟨e, he⟩
    by_cases hsw : strStartsWith id (region.str ++ ".") = true
    · rw [getRegionalModelId_already hsw] at he
      exact Except.noConfusion he
    · have hsw' : strStartsWith id (region.str ++ ".") = false :=
        bool_eq_false_of_ne_true hsw
      by_cases hcris : supportsCRIS cat (bareOf id) = true
      · cases hmap : crisModelMap cat (bareOf id) with
        | none => exact ⟨hsw', hcris, rfl⟩
        | some e2 =>
            rw [getRegionalModelId_cris_defined hsw' hcris hmap] at he
            exact Except.noConfusion he
      · have hcris' : supportsCRIS cat (bareOf id) = false :=
          bool_eq_false_of_ne_true hcris
        by_cases hp : (parseModelId id).prefixed = true
        · rw [getRegionalModelId_retag hsw' hcris' hp] at he
          exact Except.noConfusion he
        · rw [getRegionalModelId_miss hsw' hcris' (bool_eq_false_of_ne_true hp)] at he
          exact Except.noConfusion he
  · rintro ⟨h1, h2, h3⟩
    exact ⟨typeErrorMsg, getRegionalModelId_cris_undefined h1 h2 h3⟩

/-- Under the spec's identifier invariant the resolver never throws. -/
theorem getRegionalModelId_no_throw (cat : List String) (id : String)
    (region : AwsRegion) (hwf : WfModelId id) :
    getRegionalModelId cat id region = .ok (resolveOk cat id region) := by
  cases hres : getRegionalModelId cat id region with
  | ok o => rw [resolveOk_of_ok hres]
  | error e =>
      exfalso
      have hiff := (getRegionalModelId_error_iff cat id region).mp ⟨e, hres⟩
      obtain ⟨e', he'⟩ := supportsCRIS_isSome_of_unprefixed hwf hiff.2.1
      rw [he'] at hiff
      exact Option.noConfusion hiff.2.2

/-- Resolver result for an eligible unprefixed (bare) id: the catalog's
region-tagged variant. -/
theorem getRegionalModelId_of_eligible_bare (cat : List String) (b : String)
    (r : AwsRegion) (hb : (parseModelId b).prefixed = false)
    (heu : ("eu." ++ b) ∈ cat) (hus : ("us." ++ b) ∈ cat) :
    getRegionalModelId cat b r = .ok (some (r.str ++ "." ++ b)) := by
  have hcris := supportsCRIS_of_both hb heu hus
  have hceu : crisEu (crisModelMap cat) b = some ("eu." ++ b) := by
    rw [crisModelMap_crisEu, if_pos heu]
  obtain ⟨e, he, heue⟩ := crisMap_entry_of_crisEu hceu
  have heus : e.us = some ("us." ++ b) := by
    have h := crisModelMap_crisUs cat b
    rw [if_pos hus] at h
    unfold crisUs at h
    rw [he] at h
    exact h
  unfold getRegionalModelId
  cases r with
  | eu =>
      rw [region_str_eu, not_startsWith_eu_of_unprefixed hb]
      simp only [Bool.false_eq_true, if_false]
      rw [hb]
      simp only [Bool.false_eq_true, if_false]
      rw [hcris, if_pos rfl, he]
      show Except.ok (jsOrNull (CrisEntry.get e AwsRegion.eu)) = _
      rw [show CrisEntry.get e AwsRegion.eu = e.eu from rfl, heue,
        jsOrNull_some_of_ne (eu_append_ne_empty b)]
  | us =>
      rw [region_str_us, not_startsWith_us_of_unprefixed hb]
      simp only [Bool.false_eq_true, if_false]
      rw [hb]
      simp only [Bool.false_eq_true, if_false]
      rw [hcris, if_pos rfl, he]
      show Except.ok (jsOrNull (CrisEntry.get e AwsRegion.us)) = _
      rw [show CrisEntry.get e AwsRegion.us = e.us from rfl, heus,
        jsOrNull_some_of_ne (us_append_ne_empty b)]

/-- The spec's data-model invariant on the catalog: stripping the region tag
of a tagged identifier yields a bare (untagged) identifier. -/
def CatalogWF (cat : List String) : Prop :=
  ∀ id ∈ cat, (parseModelId id).prefixed = true →
    (parseModelId (parseModelId id).id).prefixed = false

theorem bare_unprefixed_of_wf {cat : List String} {b : String}
    (hwf : CatalogWF cat) (heu : ("eu." ++ b) ∈ cat) :
    (parseModelId b).prefixed = false := by
  have h := hwf _ heu
  rw [parseModelId_eu_append] at h
  exact h rfl

/-! ## Configuration values and parameter bags (`src/types/base.ts`,
`src/types/config.ts`)

A `ModelParams` / root-parameter record is modelled as a key-indexed partial
map; the JS object spread `{...a, ...b}` becomes a right-biased merge. -/

/-- `ConfigValue`: an environment reference, a tagged string value, or a plain
string. -/
inductive ConfigValue where
  | environment (name : String)
  | stringValue (value : String)
  | plain (s : String)
deriving DecidableEq, Repr

/-- JS truthiness of a `ConfigValue`: objects are truthy, a plain string is
truthy unless empty. -/
def ConfigValue.truthy : ConfigValue → Bool
  | .plain s => if s = "" then false else true
  | _ => true

/-- `CacheControlInjectionPoint` record (`{location: "message", role, index}`). -/
structure CacheControlInjectionPoint where
  location : String
  role : String
  index : Nat
deriving DecidableEq, Repr

/-- A value stored in a parameter record: a `ConfigValue`, a plain string
(the resolved model path), JS `undefined` stored under a present key, the
cache-control injection list, or an arbitrary caller-supplied value. -/
inductive ParamValue where
  | cfg (v : ConfigValue)
  | str (s : String)
  | undefined
  | injection (points : List CacheControlInjectionPoint)
  | other (tag : String)
deriving DecidableEq, Repr

/-- A JS object used as a parameter bag: a partial map from keys to values. -/
def Params := String → Option ParamValue

/-- The empty object `{}`. -/
def Params.empty : Params := fun _ => none

/-- An object literal with the given (distinct) keys. -/
def Params.ofList (l : List (String × ParamValue)) : Params :=
  fun k => (l.find? (fun p => decide (p.1 = k))).map (·.2)

/-- JS spread `{...a, ...b}`: keys of `b` override keys of `a`. -/
def jsSpread (a b : Params) : Params :=
  fun k => (b k).orElse (fun _ => a k)

/-- JS property assignment `p[k] = v`. -/
def setKey (p : Params) (k : String) (v : ParamValue) : Params :=
  fun q => if q = k then some v else p q

/-- Reading the region entry of the default region map gives a `ConfigValue`
or JS `undefined`. -/
def jsRegionVal : Option ConfigValue → ParamValue
  | some v => .cfg v
  | none => .undefined

/-- The conditional spread `...(sessionToken && {aws_session_token:
sessionToken})`. -/
def sessionTokenObj (t : Option ConfigValue) : Params :=
  match t with
  | some v => if v.truthy then Params.ofList [("aws_session_token", .cfg v)] else Params.empty
  | none => Params.empty

theorem jsSpread_apply (a b : Params) (k : String) :
    jsSpread a b k = ((b k).orElse (fun _ => a k)) := rfl

theorem jsSpread_of_right_some {a b : Params} {k : String} {v : ParamValue}
    (h : b k = some v) : jsSpread a b k = some v := by
  unfold jsSpread
  rw [h]
  rfl

theorem jsSpread_of_right_none {a b : Params} {k : String}
    (h : b k = none) : jsSpread a b k = a k := by
  unfold jsSpread
  rw [h]
  rfl

/-! ## Entry registry (`src/models/model-builder.ts`)

`ModelBuilder` keeps an append-only `models` array; `addModel` pushes one
`ModelDefinition`, `addLoadBalancedModel` pushes one per credential (same
name). The emitted entry object is typed with an index signature: after
building `{model_name, litellm_params: {model, ...litellmParams}}` the source
assigns every root-params key onto the object, so a root key `model_name` or
`litellm_params` overwrites the corresponding property. -/

/-- A property value of an emitted entry object: the display-name string, the
`litellm_params` object, or an arbitrary value assigned from root params. -/
inductive EntryValue where
  | str (s : String)
  | params (p : Params)
  | pv (v : ParamValue)

/-- One emitted route. The two named properties carry the effect of the
root-params assignment loop (a bound root key overwrites them); the full
root-params record is kept in `root` for the remaining keys. -/
structure ModelDefinition where
  model_name : EntryValue
  litellm_params : EntryValue
  root : Params

/-- The `ModelDefinition` built by `ModelBuilder.addModel`:
`{model_name, litellm_params: {model: modelPath, ...litellmParams}}`, then
`modelDef[key] = value` for every root-params entry. -/
def mkModelDef (modelName modelPath : String) (litellmParams root : Params) :
    ModelDefinition :=
  { model_name :=
      match root "model_name" with
      | some v => .pv v
      | none => .str modelName
    litellm_params :=
      match root "litellm_params" with
      | some v => .pv v
      | none => .params (jsSpread (Params.ofList [("model", .str modelPath)]) litellmParams)
    root := root }

/-- Reading `entry.litellm_params[k]` (no value when that property was
overwritten by a non-object root value). -/
def ModelDefinition.param (d : ModelDefinition) (k : String) : Option ParamValue :=
  match d.litellm_params with
  | .params p => p k
  | _ => none

/-- The `litellm_params.model` slot of an entry (the resolved provider path). -/
def ModelDefinition.path (d : ModelDefinition) : Option ParamValue :=
  d.param "model"

theorem mkModelDef_name_of_unbound {r : Params} (n p : String) (l : Params)
    (h : r "model_name" = none) :
    (mkModelDef n p l r).model_name = .str n := by
  unfold mkModelDef
  show (match r "model_name" with
    | some v => EntryValue.pv v
    | none => EntryValue.str n) = EntryValue.str n
  rw [h]

theorem mkModelDef_param_of_unbound {r : Params} (n p : String) (l : Params)
    (k : String) (h : r "litellm_params" = none) :
    (mkModelDef n p l r).param k =
      jsSpread (Params.ofList [("model", .str p)]) l k := by
  unfold mkModelDef ModelDefinition.param
  show (match (match r "litellm_params" with
      | some v => EntryValue.pv v
      | none => EntryValue.params
          (jsSpread (Params.ofList [("model", .str p)]) l)) with
    | EntryValue.params q => q k
    | _ => none) = _
  rw [h]

theorem mkModelDef_path_of_unbound {r : Params} (n p : String) (l : Params)
    (hl : l "model" = none) (hroot : r "litellm_params" = none) :
    (mkModelDef n p l r).path = some (.str p) := by
  unfold ModelDefinition.path
  rw [mkModelDef_param_of_unbound n p l "model" hroot]
  unfold jsSpread Params.ofList
  simp [hl]

theorem mkModelDef_lookup_of_params {l r : Params} {k : String} {v : ParamValue}
    (n p : String) (h : l k = some v) (hroot : r "litellm_params" = none) :
    (mkModelDef n p l r).param k = some v := by
  rw [mkModelDef_param_of_unbound n p l k hroot]
  exact jsSpread_of_right_some h

/-- The old-format `LoadBalanceConfig` consumed by
`ModelBuilder.addLoadBalancedModel`. -/
structure LoadBalanceConfig (T : Type) where
  parameterName : String
  credentials : List T
  credentialToParams : T → Params

namespace CoreModelBuilder

/-- `ModelBuilder.addModel`. -/
def addModel (models : List ModelDefinition) (modelName modelPath : String)
    (litellmParams root : Params) : List ModelDefinition :=
  models ++ [mkModelDef modelName modelPath litellmParams root]

/-- `ModelBuilder.addLoadBalancedModel`: one entry per credential, all with
the same name, each merging the credential's parameters over the base. -/
def addLoadBalancedModel {T : Type} (models : List ModelDefinition)
    (modelName modelPath : String) (lbc : LoadBalanceConfig T)
    (baseLitellmParams baseRootParams : Params) : List ModelDefinition :=
  lbc.credentials.foldl
    (fun ms credential =>
      addModel ms modelName modelPath
        (jsSpread baseLitellmParams (lbc.credentialToParams credential))
        baseRootParams)
    models

end CoreModelBuilder

/-! Generic shapes of the `forEach`-push loops. -/

theorem foldl_append_map {α : Type} (g : α → ModelDefinition) :
    ∀ (l : List α) (init : List ModelDefinition),
      l.foldl (fun ms x => ms ++ [g x]) init = init ++ l.map g := by
  intro l
  induction l with
  | nil => intro init; simp
  | cons x xs ih =>
    intro init
    rw [List.foldl_cons, ih, List.map_cons]
    simp

theorem addLoadBalancedModel_eq {T : Type} (models : List ModelDefinition)
    (modelName modelPath : String) (lbc : LoadBalanceConfig T)
    (base root : Params) :
    CoreModelBuilder.addLoadBalancedModel models modelName modelPath lbc base root =
      models ++ lbc.credentials.map (fun c =>
        mkModelDef modelName modelPath (jsSpread base (lbc.credentialToParams c)) root) := by
  unfold CoreModelBuilder.addLoadBalancedModel CoreModelBuilder.addModel
  rw [foldl_append_map]

/-! ## Mutating calls that can throw

JS method calls on the builder mutate the shared registry as they go; an
exception thrown mid-loop propagates while the pushes already performed are
retained. -/

/-- The observable outcome of a mutating call that may throw: the final state
on return, or the state at the throw point alongside the propagated error. -/
inductive JsResult (σ : Type) where
  | ok (s : σ)
  | thrown (s : σ) (e : String)

/-- The state after the call, whether or not it threw. -/
def JsResult.state {σ : Type} : JsResult σ → σ
  | .ok s => s
  | .thrown s _ => s

/-- Whether the call threw. -/
def JsResult.isThrown {σ : Type} : JsResult σ → Bool
  | .ok _ => false
  | .thrown _ _ => true

/-- `forEach` with a callback that may throw: iterate until an exception
propagates, retaining the mutations of completed iterations. -/
def jsFold {σ α : Type} (f : σ → α → JsResult σ) : List α → σ → JsResult σ
  | [], s => .ok s
  | x :: xs, s =>
      match f s x with
      | .ok s' => jsFold f xs s'
      | .thrown s' e => .thrown s' e

/-- A loop whose steps all return normally folds like the pure loop. -/
theorem jsFold_ok_of_steps {σ α : Type} (f : σ → α → JsResult σ)
    (g : σ → α → σ) :
    ∀ (l : List α) (s : σ), (∀ x ∈ l, ∀ t, f t x = .ok (g t x)) →
      jsFold f l s = .ok (l.foldl g s) := by
  intro l
  induction l with
  | nil => intro s _; rfl
  | cons x xs ih =>
      intro s h
      show (match f s x with
        | JsResult.ok s' => jsFold f xs s'
        | JsResult.thrown s' e => JsResult.thrown s' e) = _
      rw [h x (List.mem_cons_self _ _) s, List.foldl_cons]
      exact ih _ (fun y hy t => h y (List.mem_cons_of_mem x hy) t)

theorem foldl_fun_congr {σ α : Type} (f g : σ → α → σ)
    (h : ∀ s x, f s x = g s x) :
    ∀ (l : List α) (s : σ), l.foldl f s = l.foldl g s := by
  intro l
  induction l with
  | nil => intro s; rfl
  | cons x xs ih =>
      intro s
      rw [List.foldl_cons, List.foldl_cons, h, ih]

theorem flatMap_singleton_map {α β : Type} (f : α → β) (l : List α) :
    l.flatMap (fun x => [f x]) = l.map f := by
  induction l with
  | nil => rfl
  | cons x xs ih =>
      rw [List.flatMap_cons, List.map_cons, ih]
      rfl

/-! ## AWS Bedrock builder (`src/providers/aws.ts`) -/

/-- One AWS credential bundle used as a load-balancing axis element. -/
structure AwsLoadBalanceCredential where
  accessKeyId : ConfigValue
  secretAccessKey : ConfigValue
  sessionToken : Option ConfigValue
deriving DecidableEq, Repr

/-- `AwsProviderOptions`. The region map is ordered as the caller's object
literal (the TS `Record<AwsRegion, ConfigValue>` type requires both keys, so
it is non-empty in well-typed callers). -/
structure AwsProviderOptions where
  accessKeyId : ConfigValue
  secretAccessKey : ConfigValue
  defaultRegionMap : List (AwsRegion × ConfigValue)
  sessionToken : Option ConfigValue
  detectCRIS : Bool

/-- The builder's per-instance context: its options, the optional
`withCacheControl` roles, and the identifier catalog it consults. -/
structure AwsCtx where
  options : AwsProviderOptions
  cacheControlRoles : Option (List String)
  cat : List String

/-- The mutable state touched by the AWS builder: the shared entry registry
and the accumulated fallback relations. -/
structure AwsState where
  models : List ModelDefinition
  fallbacks : List (String × List String)

/-- Property read `defaultRegionMap[region]` (first matching key, or JS
`undefined` as `none`). -/
def regionGet (m : List (AwsRegion × ConfigValue)) (r : AwsRegion) :
    Option ConfigValue :=
  (m.find? (fun p => decide (p.1 = r))).map (·.2)

/-- The `cache_control_injection_points` value built from configured roles. -/
def mkInjectionPoints (roles : List String) : List CacheControlInjectionPoint :=
  roles.map (fun role => { location := "message", role := role, index := 0 })

/-- `buildAwsLitellmParams`: base auth params, optional session token,
optional cache-control points, then the additional params spread on top. -/
def buildAwsLitellmParams (ctx : AwsCtx) (regionVar : Option ConfigValue)
    (additionalParams : Params) : Params :=
  let baseParams := jsSpread
    (Params.ofList [
      ("aws_access_key_id", .cfg ctx.options.accessKeyId),
      ("aws_secret_access_key", .cfg ctx.options.secretAccessKey),
      ("aws_region_name", jsRegionVal regionVar)])
    (sessionTokenObj ctx.options.sessionToken)
  let baseParams' := match ctx.cacheControlRoles with
    | some roles =>
        setKey baseParams "cache_control_injection_points"
          (.injection (mkInjectionPoints roles))
    | none => baseParams
  jsSpread baseParams' additionalParams

/-- The id used by `addCrossRegionModel` for one region in the non-throwing
case: `getRegionalModelId(baseModelId, region) || `${region}.${baseModelId}``. -/
def crossRegionResolvedId (cat : List String) (baseModelId : String)
    (region : AwsRegion) : String :=
  jsOrString (resolveOk cat baseModelId region)
    (region.str ++ "." ++ baseModelId)

/-- The id used by the load-balancing paths in the non-throwing case:
`getRegionalModelId(modelId, region) || modelId`. -/
def lbResolvedId (cat : List String) (modelId : String) (region : AwsRegion) :
    String :=
  jsOrString (resolveOk cat modelId region) modelId

/-- `AwsBedrockBuilder.addCrossRegionModel`: one entry per requested region,
resolving through the catalog and falling back to the fabricated
`region.baseModelId`; a resolver TypeError propagates out of the `forEach`,
keeping the entries already pushed. -/
def addCrossRegionModel (ctx : AwsCtx) (st : AwsState)
    (baseModelId displayName : String) (regions : List AwsRegion)
    (litellmParams root : Params) : JsResult AwsState :=
  jsFold (fun s region =>
      match getRegionalModelId ctx.cat baseModelId region with
      | .error e => .thrown s e
      | .ok ro =>
          let modelId := jsOrString ro (region.str ++ "." ++ baseModelId)
          if modelId = "" then .ok s
          else
            let regionVar := regionGet ctx.options.defaultRegionMap region
            let params := buildAwsLitellmParams ctx regionVar litellmParams
            let newModels := CoreModelBuilder.addModel s.models displayName
              ("bedrock/" ++ modelId) params root
            .ok { s with models := newModels })
    regions st

/-- `AwsBedrockBuilder.addBasicModel`: upgrade to cross-region expansion when
CRIS detection is on and the id is eligible; otherwise resolve (which can
throw) and emit one entry. -/
def addBasicModel (ctx : AwsCtx) (st : AwsState)
    (displayName modelId : String) (region : AwsRegion)
    (litellmParams root : Params) : JsResult AwsState :=
  if ctx.options.detectCRIS && supportsCRIS ctx.cat modelId then
    addCrossRegionModel ctx st (parseModelId modelId).id displayName
      [AwsRegion.eu, AwsRegion.us] litellmParams root
  else
    match getRegionalModelId ctx.cat modelId region with
    | .error e => .thrown st e
    | .ok ro =>
        let resolvedModelId := jsOrString ro modelId
        let regionVar := regionGet ctx.options.defaultRegionMap region
        let params := buildAwsLitellmParams ctx regionVar litellmParams
        let newModels := CoreModelBuilder.addModel st.models displayName
          ("bedrock/" ++ resolvedModelId) params root
        .ok { st with models := newModels }

/-- `LoadBalanceStrategy` (`'cartesian' | 'fallback'`). -/
inductive LoadBalanceStrategy where
  | cartesian
  | fallback
deriving DecidableEq, Repr

/-- The literal strategy string, for error messages. -/
def LoadBalanceStrategy.str : LoadBalanceStrategy → String
  | .cartesian => "cartesian"
  | .fallback => "fallback"

/-- `FallbackConfig` (primary region plus optional suffix). The source types
`primary` as a string and casts it to `AwsRegion`; the typed view is used
here. -/
structure FallbackConfig where
  primary : AwsRegion
  suffix : Option String
deriving DecidableEq, Repr

/-- The `dimensions` record of a unified load-balance config. -/
structure LoadBalanceDimensions (T : Type) where
  credentials : Option (List T)
  regions : Option (List AwsRegion)

/-- `UnifiedLoadBalanceConfig`. -/
structure UnifiedLoadBalanceConfig (T : Type) where
  dimensions : LoadBalanceDimensions T
  strategy : LoadBalanceStrategy
  fallbackConfig : Option FallbackConfig

/-- The per-credential auth params of the credentials-only cartesian path
(the `credentialToParams` closure over the chosen region variable). -/
def credOnlyParams (regionVar : Option ConfigValue)
    (credential : AwsLoadBalanceCredential) : Params :=
  jsSpread
    (Params.ofList [
      ("aws_access_key_id", .cfg credential.accessKeyId),
      ("aws_secret_access_key", .cfg credential.secretAccessKey),
      ("aws_region_name", jsRegionVal regionVar)])
    (sessionTokenObj credential.sessionToken)

/-- The params literal of the regions×credentials loop body (credential auth
fields, then the caller's params, then the cache-control assignment). -/
def multiAxisParams (ctx : AwsCtx) (regionVar : Option ConfigValue)
    (credential : AwsLoadBalanceCredential) (litellmParams : Params) : Params :=
  let params0 := jsSpread (credOnlyParams regionVar credential) litellmParams
  match ctx.cacheControlRoles with
  | some roles =>
      setKey params0 "cache_control_injection_points"
        (.injection (mkInjectionPoints roles))
  | none => params0

/-- The default region chosen by the credentials-only cartesian path:
`Object.keys(defaultRegionMap)[0]`. -/
def credsOnlyDefaultRegion (ctx : AwsCtx) : Option AwsRegion :=
  (ctx.options.defaultRegionMap.head?).map (·.1)

/-- The region variable of the credentials-only cartesian path. -/
def credsOnlyRegionVar (ctx : AwsCtx) : Option ConfigValue :=
  (credsOnlyDefaultRegion ctx).bind (fun r => regionGet ctx.options.defaultRegionMap r)

/-- The resolver call of the credentials-only cartesian path
(`getRegionalModelId(modelId, defaultRegion) || modelId`, which can throw). -/
def credsOnlyResolve (ctx : AwsCtx) (modelId : String) : Except String String :=
  match credsOnlyDefaultRegion ctx with
  | some r =>
      match getRegionalModelId ctx.cat modelId r with
      | .error e => .error e
      | .ok ro => .ok (jsOrString ro modelId)
  | none => .ok modelId

/-- The resolved model id of the credentials-only cartesian path in the
non-throwing case. -/
def credsOnlyResolvedId (ctx : AwsCtx) (modelId : String) : String :=
  match credsOnlyDefaultRegion ctx with
  | some r => lbResolvedId ctx.cat modelId r
  | none => modelId

/-- `AwsBedrockBuilder.addCartesianLoadBalancedModel`. Validation errors are
thrown before any push; a resolver TypeError inside a region loop propagates
with the entries of completed iterations retained. -/
def addCartesianLoadBalancedModel (ctx : AwsCtx) (st : AwsState)
    (displayName modelId : String)
    (loadBalanceConfig : UnifiedLoadBalanceConfig AwsLoadBalanceCredential)
    (litellmParams root : Params) : JsResult AwsState :=
  let credentials := loadBalanceConfig.dimensions.credentials.getD []
  let regions := loadBalanceConfig.dimensions.regions.getD []
  if credentials.length = 0 ∧ regions.length = 0 then
    .thrown st "At least one credential or region must be specified for cartesian load balancing"
  else if credentials.length > 0 ∧ regions.length = 0 then
    match credsOnlyResolve ctx modelId with
    | .error e => .thrown st e
    | .ok resolvedModelId =>
        let regionVar := credsOnlyRegionVar ctx
        let lbcOld : LoadBalanceConfig AwsLoadBalanceCredential := {
          parameterName := "aws_credentials",
          credentials := credentials,
          credentialToParams := credOnlyParams regionVar }
        let newModels := CoreModelBuilder.addLoadBalancedModel st.models
          displayName ("bedrock/" ++ resolvedModelId) lbcOld litellmParams root
        .ok { st with models := newModels }
  else if regions.length > 0 ∧ credentials.length = 0 then
    jsFold (fun s region =>
        match getRegionalModelId ctx.cat modelId region with
        | .error e => .thrown s e
        | .ok ro =>
            let resolvedModelId := jsOrString ro modelId
            let regionVar := regionGet ctx.options.defaultRegionMap region
            let params := buildAwsLitellmParams ctx regionVar litellmParams
            let newModels := CoreModelBuilder.addModel s.models displayName
              ("bedrock/" ++ resolvedModelId) params root
            .ok { s with models := newModels })
      regions st
  else if regions.length > 0 ∧ credentials.length > 0 then
    jsFold (fun s region =>
        match getRegionalModelId ctx.cat modelId region with
        | .error e => .thrown s e
        | .ok ro =>
            let resolvedModelId := jsOrString ro modelId
            let regionVar := regionGet ctx.options.defaultRegionMap region
            let newModels := credentials.foldl (fun ms2 credential =>
                CoreModelBuilder.addModel ms2 displayName
                  ("bedrock/" ++ resolvedModelId)
                  (multiAxisParams ctx regionVar credential litellmParams) root)
              s.models
            .ok { s with models := newModels })
      regions st
  else
    .ok st

/-- `AwsBedrockBuilder.addFallbackLoadBalancedModel`. Validation errors are
thrown before any push; the primary resolver can throw before the primary
entry is pushed, and a per-region resolver TypeError propagates with prior
pushes retained. -/
def addFallbackLoadBalancedModel (ctx : AwsCtx) (st : AwsState)
    (displayName modelId : String)
    (loadBalanceConfig : UnifiedLoadBalanceConfig AwsLoadBalanceCredential)
    (litellmParams root : Params) : JsResult AwsState :=
  let regions := loadBalanceConfig.dimensions.regions.getD []
  match loadBalanceConfig.fallbackConfig with
  | none => .thrown st "Fallback configuration is required when using fallback strategy"
  | some fallbackConfig =>
    if regions.length = 0 then
      .thrown st "At least one region must be specified for fallback load balancing"
    else
      let primaryRegion := fallbackConfig.primary
      let fallbackSuffix := jsOrString fallbackConfig.suffix "-fallback"
      match getRegionalModelId ctx.cat modelId primaryRegion with
      | .error e => .thrown st e
      | .ok ro =>
          let resolvedModelId := jsOrString ro modelId
          let primaryRegionVar := regionGet ctx.options.defaultRegionMap primaryRegion
          let primaryParams := buildAwsLitellmParams ctx primaryRegionVar litellmParams
          let primaryModels := CoreModelBuilder.addModel st.models displayName
            ("bedrock/" ++ resolvedModelId) primaryParams root
          let st1 : AwsState := { st with models := primaryModels }
          jsFold (fun s region =>
              match getRegionalModelId ctx.cat modelId region with
              | .error e => .thrown s e
              | .ok ro2 =>
                  let fallbackModelId := jsOrString ro2 modelId
                  let fallbackRegionVar := regionGet ctx.options.defaultRegionMap region
                  let fallbackModelName := displayName ++ fallbackSuffix
                  let fallbackParams :=
                    buildAwsLitellmParams ctx fallbackRegionVar litellmParams
                  let newModels := CoreModelBuilder.addModel s.models fallbackModelName
                    ("bedrock/" ++ fallbackModelId) fallbackParams root
                  let newFallbacks := s.fallbacks ++ [(displayName, [fallbackModelName])]
                  .ok { models := newModels, fallbacks := newFallbacks })
            (regions.filter (fun r => decide (r ≠ primaryRegion))) st1

/-- `AwsBedrockBuilder.addLoadBalancedModel` dispatch. The source ends with a
`throw` for unsupported strategy names, unreachable because the strategy type
has exactly the two handled values. -/
def awsAddLoadBalancedModel (ctx : AwsCtx) (st : AwsState)
    (displayName modelId : String)
    (loadBalanceConfig : UnifiedLoadBalanceConfig AwsLoadBalanceCredential)
    (litellmParams root : Params) : JsResult AwsState :=
  match loadBalanceConfig.strategy with
  | .cartesian =>
      addCartesianLoadBalancedModel ctx st displayName modelId loadBalanceConfig
        litellmParams root
  | .fallback =>
      addFallbackLoadBalancedModel ctx st displayName modelId loadBalanceConfig
        litellmParams root

/-! ## Gemini builder (`src/providers/gemini.ts`) -/

/-- `ApiKeyCredential` (the `{apiKey}` wrapper built in the Gemini builder). -/
structure ApiKeyCredential where
  apiKey : ConfigValue
deriving DecidableEq, Repr

/-- `GeminiBuilder.addLoadBalancedModel`: cartesian only, at least one key;
both validation errors are thrown before any push. -/
def geminiAddLoadBalancedModel (models : List ModelDefinition)
    (displayName modelId : String)
    (loadBalanceConfig : UnifiedLoadBalanceConfig ConfigValue)
    (litellmParams root : Params) : JsResult (List ModelDefinition) :=
  if loadBalanceConfig.strategy ≠ LoadBalanceStrategy.cartesian then
    .thrown models ("Gemini only supports cartesian load balancing strategy, got: "
      ++ loadBalanceConfig.strategy.str)
  else
    let credentials := loadBalanceConfig.dimensions.credentials.getD []
    if credentials.length = 0 then
      .thrown models "At least one API key must be specified for Gemini load balancing"
    else
      let lbcOld : LoadBalanceConfig ApiKeyCredential := {
        parameterName := "api_key",
        credentials := credentials.map (fun apiKey => { apiKey := apiKey }),
        credentialToParams := fun credential =>
          Params.ofList [("api_key", .cfg credential.apiKey)] }
      .ok (CoreModelBuilder.addLoadBalancedModel models displayName
        ("gemini/" ++ modelId) lbcOld litellmParams root)

/-! ## Fluent model builder (`src/builders/model-builder.ts`,
`src/builders/aws-model-builder.ts`)

The fluent `ModelBuilder` holds a `ModelConfig` and an optional accumulated
load-balance config; its terminal operations dispatch back into the provider.
Here the provider is the AWS builder. -/

/-- The flags of a fluent builder relevant to the auto-commit convention. -/
structure FluentFlags where
  hasChained : Bool
  hasLoadBalanceConfig : Bool
deriving DecidableEq, Repr

/-- The chainable calls of the fluent builder. -/
inductive ChainOp where
  | withLoadBalancing
  | withStrategy
  | withFallbackConfig
  | withRegions
  | withCredentials
  | withRegionFallback
  | withMultiAxis
  | withVariations
  | build
deriving DecidableEq, Repr

/-- Terminal operations: the ones that execute the intent. -/
def ChainOp.isTerminal : ChainOp → Bool
  | .withVariations => true
  | .build => true
  | _ => false

/-- One synchronous chained call: every op first sets `hasChained`
(`cancelAutoExecution` runs before any throw); `withStrategy` /
`withFallbackConfig` throw when no load-balance config was set; terminal ops
execute the intent once. State: flags, number of commits, errored. -/
def chainStep : FluentFlags × Nat × Bool → ChainOp → FluentFlags × Nat × Bool
  | (flags, n, errored), op =>
    if errored then (flags, n, errored)
    else
      match op with
      | .withLoadBalancing =>
          ({ hasChained := true, hasLoadBalanceConfig := true }, n, false)
      | .withStrategy =>
          ({ flags with hasChained := true }, n, !flags.hasLoadBalanceConfig)
      | .withFallbackConfig =>
          ({ flags with hasChained := true }, n, !flags.hasLoadBalanceConfig)
      | .withRegions =>
          ({ hasChained := true, hasLoadBalanceConfig := true }, n, false)
      | .withCredentials =>
          ({ hasChained := true, hasLoadBalanceConfig := true }, n, false)
      | .withRegionFallback =>
          ({ hasChained := true, hasLoadBalanceConfig := true }, n, false)
      | .withMultiAxis =>
          ({ hasChained := true, hasLoadBalanceConfig := true }, n, false)
      | .withVariations =>
          ({ flags with hasChained := true }, n + 1, false)
      | .build =>
          ({ flags with hasChained := true }, n + 1, false)

/-- The synchronous part of a builder's lifetime: constructor state, then the
chained calls in order. -/
def runChain (ops : List ChainOp) : FluentFlags × Nat × Bool :=
  ops.foldl chainStep ({ hasChained := false, hasLoadBalanceConfig := false }, 0, false)

/-- Total commits after the scheduled microtask also ran: the deferred
callback commits once only when `hasChained` is still false. -/
def totalCommits (ops : List ChainOp) : Nat :=
  let result := runChain ops
  result.2.1 + (if result.1.hasChained then 0 else 1)

/-! ## Structural lemmas about the expansion paths -/

theorem region_tag_append_ne_empty (r : AwsRegion) (b : String) :
    r.str ++ "." ++ b ≠ "" := by
  cases r with
  | eu =>
      apply string_ne_empty_of_data_cons (c := 'e') (t := 'u' :: '.' :: b.data)
      show (("eu" ++ "." : String) ++ b).data = _
      rw [String.data_append]
      rfl
  | us =>
      apply string_ne_empty_of_data_cons (c := 'u') (t := 's' :: '.' :: b.data)
      show (("us" ++ "." : String) ++ b).data = _
      rw [String.data_append]
      rfl

theorem jsOrString_ne_empty {a : Option String} {b : String} (hb : b ≠ "") :
    jsOrString a b ≠ "" := by
  unfold jsOrString
  cases a with
  | none => exact hb
  | some s =>
      show (if s = "" then b else s) ≠ ""
      by_cases hs : s = ""
      · rw [if_pos hs]; exact hb
      · rw [if_neg hs]; exact hs

theorem crossRegionResolvedId_ne_empty (cat : List String) (base : String)
    (r : AwsRegion) : crossRegionResolvedId cat base r ≠ "" :=
  jsOrString_ne_empty (region_tag_append_ne_empty r base)

theorem jsOrString_some_of_ne {s : String} (b : String) (h : s ≠ "") :
    jsOrString (some s) b = s := by
  unfold jsOrString
  show (if s = "" then b else s) = s
  rw [if_neg h]

theorem crossRegionResolvedId_eu (cat : List String) (b : String)
    (hb : (parseModelId b).prefixed = false)
    (heu : ("eu." ++ b) ∈ cat) (hus : ("us." ++ b) ∈ cat) :
    crossRegionResolvedId cat b AwsRegion.eu = "eu." ++ b := by
  unfold crossRegionResolvedId
  rw [resolveOk_of_ok (getRegionalModelId_of_eligible_bare cat b AwsRegion.eu hb heu hus)]
  exact jsOrString_some_of_ne _ (eu_append_ne_empty b)

theorem crossRegionResolvedId_us (cat : List String) (b : String)
    (hb : (parseModelId b).prefixed = false)
    (heu : ("eu." ++ b) ∈ cat) (hus : ("us." ++ b) ∈ cat) :
    crossRegionResolvedId cat b AwsRegion.us = "us." ++ b := by
  unfold crossRegionResolvedId
  rw [resolveOk_of_ok (getRegionalModelId_of_eligible_bare cat b AwsRegion.us hb heu hus)]
  exact jsOrString_some_of_ne _ (us_append_ne_empty b)

/-- Pure shape of a loop that appends one block of entries per element. -/
theorem foldl_state_blocks {α : Type} (blk : α → List ModelDefinition) :
    ∀ (l : List α) (s : AwsState),
      l.foldl (fun t x => { t with models := t.models ++ blk x }) s =
        { s with models := s.models ++ l.flatMap blk } := by
  intro l
  induction l with
  | nil => intro s; simp
  | cons x xs ih =>
      intro s
      rw [List.foldl_cons, ih, List.flatMap_cons]
      simp [List.append_assoc]

/-- Pure shape of a loop that appends one entry block and one fallback block
per element. -/
theorem foldl_state_blocks2 {α : Type} (blkm : α → List ModelDefinition)
    (blkf : α → List (String × List String)) :
    ∀ (l : List α) (s : AwsState),
      l.foldl (fun t x =>
          { models := t.models ++ blkm x, fallbacks := t.fallbacks ++ blkf x }) s =
        { models := s.models ++ l.flatMap blkm,
          fallbacks := s.fallbacks ++ l.flatMap blkf } := by
  intro l
  induction l with
  | nil => intro s; simp
  | cons x xs ih =>
      intro s
      rw [List.foldl_cons, ih, List.flatMap_cons, List.flatMap_cons]
      simp [List.append_assoc]

/-- The entry emitted by `addCrossRegionModel` for one region. -/
def crossRegionEntry (ctx : AwsCtx) (baseModelId displayName : String)
    (litellmParams root : Params) (region : AwsRegion) : ModelDefinition :=
  mkModelDef displayName ("bedrock/" ++ crossRegionResolvedId ctx.cat baseModelId region)
    (buildAwsLitellmParams ctx (regionGet ctx.options.defaultRegionMap region) litellmParams)
    root

theorem addCrossRegionModel_eq (ctx : AwsCtx) (st : AwsState)
    (baseModelId displayName : String) (regions : List AwsRegion)
    (litellmParams root : Params) (hwf : WfModelId baseModelId) :
    addCrossRegionModel ctx st baseModelId displayName regions litellmParams root =
      .ok { st with models := st.models ++
          regions.map (crossRegionEntry ctx baseModelId displayName litellmParams root) } := by
  unfold addCrossRegionModel
  refine (jsFold_ok_of_steps _
    (fun t region => { t with models := t.models ++
      [crossRegionEntry ctx baseModelId displayName litellmParams root region] })
    regions st ?_).trans ?_
  · intro region _ t
    rw [getRegionalModelId_no_throw ctx.cat baseModelId region hwf]
    show (if crossRegionResolvedId ctx.cat baseModelId region = "" then JsResult.ok t
      else JsResult.ok { t with models := t.models ++
        [crossRegionEntry ctx baseModelId displayName litellmParams root region] }) = _
    rw [if_neg (crossRegionResolvedId_ne_empty ctx.cat baseModelId region)]
  · rw [foldl_state_blocks, flatMap_singleton_map]

theorem credsOnlyResolve_ok (ctx : AwsCtx) (modelId : String)
    (hwf : WfModelId modelId) :
    credsOnlyResolve ctx modelId = .ok (credsOnlyResolvedId ctx modelId) := by
  unfold credsOnlyResolve credsOnlyResolvedId
  cases hd : credsOnlyDefaultRegion ctx with
  | none => rfl
  | some r =>
      dsimp only
      rw [getRegionalModelId_no_throw ctx.cat modelId r hwf]
      rfl

/-- The entry emitted by the credentials-only cartesian path for one
credential. -/
def credsOnlyEntry (ctx : AwsCtx) (displayName modelId : String)
    (litellmParams root : Params) (credential : AwsLoadBalanceCredential) :
    ModelDefinition :=
  mkModelDef displayName ("bedrock/" ++ credsOnlyResolvedId ctx modelId)
    (jsSpread litellmParams (credOnlyParams (credsOnlyRegionVar ctx) credential)) root

theorem addCartesian_credsOnly (ctx : AwsCtx) (st : AwsState)
    (displayName modelId : String)
    (lbc : UnifiedLoadBalanceConfig AwsLoadBalanceCredential)
    (litellmParams root : Params) (cs : List AwsLoadBalanceCredential)
    (hwf : WfModelId modelId)
    (hc : lbc.dimensions.credentials.getD [] = cs) (hcne : cs ≠ [])
    (hr : lbc.dimensions.regions.getD [] = []) :
    addCartesianLoadBalancedModel ctx st displayName modelId lbc litellmParams root =
      .ok { st with models := (st.models ++
        cs.map (credsOnlyEntry ctx displayName modelId litellmParams root)) } := by
  have hlen : cs.length ≠ 0 := by
    intro h
    exact hcne (List.length_eq_zero.mp h)
  unfold addCartesianLoadBalancedModel
  rw [hc, hr]
  dsimp only
  rw [if_neg (by intro h; exact hlen h.1)]
  rw [if_pos ⟨Nat.pos_of_ne_zero hlen, rfl⟩]
  rw [credsOnlyResolve_ok ctx modelId hwf]
  dsimp only
  rw [addLoadBalancedModel_eq]
  rfl

/-- The entry emitted by the regions-only cartesian path for one region. -/
def regionsOnlyEntry (ctx : AwsCtx) (displayName modelId : String)
    (litellmParams root : Params) (region : AwsRegion) : ModelDefinition :=
  mkModelDef displayName ("bedrock/" ++ lbResolvedId ctx.cat modelId region)
    (buildAwsLitellmParams ctx (regionGet ctx.options.defaultRegionMap region) litellmParams)
    root

theorem addCartesian_regionsOnly (ctx : AwsCtx) (st : AwsState)
    (displayName modelId : String)
    (lbc : UnifiedLoadBalanceConfig AwsLoadBalanceCredential)
    (litellmParams root : Params) (rs : List AwsRegion)
    (hwf : WfModelId modelId)
    (hr : lbc.dimensions.regions.getD [] = rs) (hrne : rs ≠ [])
    (hc : lbc.dimensions.credentials.getD [] = []) :
    addCartesianLoadBalancedModel ctx st displayName modelId lbc litellmParams root =
      .ok { st with models := (st.models ++
        rs.map (regionsOnlyEntry ctx displayName modelId litellmParams root)) } := by
  have hlen : rs.length ≠ 0 := by
    intro h
    exact hrne (List.length_eq_zero.mp h)
  unfold addCartesianLoadBalancedModel
  rw [hr, hc]
  dsimp only
  rw [if_neg (by intro h; exact hlen h.2)]
  rw [if_neg (by intro h; simp at h)]
  rw [if_pos ⟨Nat.pos_of_ne_zero hlen, rfl⟩]
  refine (jsFold_ok_of_steps _
    (fun t region => { t with models := t.models ++
      [regionsOnlyEntry ctx displayName modelId litellmParams root region] })
    rs st ?_).trans ?_
  · intro region _ t
    rw [getRegionalModelId_no_throw ctx.cat modelId region hwf]
    rfl
  · rw [foldl_state_blocks, flatMap_singleton_map]

/-- The entry emitted by the regions×credentials cartesian path for one
(region, credential) pair. -/
def multiAxisEntry (ctx : AwsCtx) (displayName modelId : String)
    (litellmParams root : Params) (region : AwsRegion)
    (credential : AwsLoadBalanceCredential) : ModelDefinition :=
  mkModelDef displayName ("bedrock/" ++ lbResolvedId ctx.cat modelId region)
    (multiAxisParams ctx (regionGet ctx.options.defaultRegionMap region) credential litellmParams)
    root

theorem addCartesian_multi (ctx : AwsCtx) (st : AwsState)
    (displayName modelId : String)
    (lbc : UnifiedLoadBalanceConfig AwsLoadBalanceCredential)
    (litellmParams root : Params) (rs : List AwsRegion)
    (cs : List AwsLoadBalanceCredential)
    (hwf : WfModelId modelId)
    (hr : lbc.dimensions.regions.getD [] = rs) (hrne : rs ≠ [])
    (hc : lbc.dimensions.credentials.getD [] = cs) (hcne : cs ≠ []) :
    addCartesianLoadBalancedModel ctx st displayName modelId lbc litellmParams root =
      .ok { st with models := (st.models ++
        rs.flatMap (fun region =>
          cs.map (multiAxisEntry ctx displayName modelId litellmParams root region))) } := by
  have hrlen : rs.length ≠ 0 := by
    intro h
    exact hrne (List.length_eq_zero.mp h)
  have hclen : cs.length ≠ 0 := by
    intro h
    exact hcne (List.length_eq_zero.mp h)
  unfold addCartesianLoadBalancedModel
  rw [hr, hc]
  dsimp only
  rw [if_neg (by intro h; exact hclen h.1)]
  rw [if_neg (by intro h; exact hrlen h.2)]
  rw [if_neg (by intro h; exact hclen (Nat.eq_zero_of_le_zero (Nat.le_of_eq h.2)))]
  rw [if_pos ⟨Nat.pos_of_ne_zero hrlen, Nat.pos_of_ne_zero hclen⟩]
  refine (jsFold_ok_of_steps _
    (fun t region => { t with models := t.models ++ cs.map (multiAxisEntry ctx displayName modelId litellmParams root region) })
    rs st ?_).trans ?_
  · intro region _ t
    rw [getRegionalModelId_no_throw ctx.cat modelId region hwf]
    dsimp only
    have h := foldl_append_map
      (fun credential => multiAxisEntry ctx displayName modelId litellmParams root
        region credential) cs t.models
    have hfn : (fun (ms2 : List ModelDefinition)
        (credential : AwsLoadBalanceCredential) =>
        CoreModelBuilder.addModel ms2 displayName
          ("bedrock/" ++ jsOrString (resolveOk ctx.cat modelId region) modelId)
          (multiAxisParams ctx (regionGet ctx.options.defaultRegionMap region)
            credential litellmParams) root) =
        (fun ms x =>
          ms ++ [multiAxisEntry ctx displayName modelId litellmParams root region x]) := rfl
    rw [hfn, h]
  · rw [foldl_state_blocks]

/-- The primary entry emitted by the fallback path. -/
def fallbackPrimaryEntry (ctx : AwsCtx) (displayName modelId : String)
    (litellmParams root : Params) (primaryRegion : AwsRegion) : ModelDefinition :=
  mkModelDef displayName ("bedrock/" ++ lbResolvedId ctx.cat modelId primaryRegion)
    (buildAwsLitellmParams ctx (regionGet ctx.options.defaultRegionMap primaryRegion)
      litellmParams)
    root

/-- The secondary (fallback) entry emitted for one non-primary region. -/
def fallbackSecondaryEntry (ctx : AwsCtx) (displayName modelId : String)
    (litellmParams root : Params) (fallbackSuffix : String) (region : AwsRegion) :
    ModelDefinition :=
  mkModelDef (displayName ++ fallbackSuffix)
    ("bedrock/" ++ lbResolvedId ctx.cat modelId region)
    (buildAwsLitellmParams ctx (regionGet ctx.options.defaultRegionMap region) litellmParams)
    root

theorem addFallback_eq (ctx : AwsCtx) (st : AwsState)
    (displayName modelId : String)
    (lbc : UnifiedLoadBalanceConfig AwsLoadBalanceCredential)
    (litellmParams root : Params) (rs : List AwsRegion) (fc : FallbackConfig)
    (hwf : WfModelId modelId)
    (hr : lbc.dimensions.regions.getD [] = rs) (hrne : rs ≠ [])
    (hfc : lbc.fallbackConfig = some fc) :
    addFallbackLoadBalancedModel ctx st displayName modelId lbc litellmParams root =
      .ok { models := ((st.models ++
              [fallbackPrimaryEntry ctx displayName modelId litellmParams root fc.primary]) ++
            (rs.filter (fun r => decide (r ≠ fc.primary))).map
              (fallbackSecondaryEntry ctx displayName modelId litellmParams root
                (jsOrString fc.suffix "-fallback"))),
            fallbacks := (st.fallbacks ++
            (rs.filter (fun r => decide (r ≠ fc.primary))).map
              (fun _ => (displayName,
                [displayName ++ jsOrString fc.suffix "-fallback"]))) } := by
  have hlen : rs.length ≠ 0 := by
    intro h
    exact hrne (List.length_eq_zero.mp h)
  unfold addFallbackLoadBalancedModel
  rw [hr, hfc]
  dsimp only
  rw [if_neg hlen]
  rw [getRegionalModelId_no_throw ctx.cat modelId fc.primary hwf]
  dsimp only
  refine (jsFold_ok_of_steps _
    (fun t region =>
      { models := t.models ++
          [fallbackSecondaryEntry ctx displayName modelId litellmParams root
            (jsOrString fc.suffix "-fallback") region],
        fallbacks := t.fallbacks ++
          [(displayName, [displayName ++ jsOrString fc.suffix "-fallback"])] })
    (rs.filter (fun r => decide (r ≠ fc.primary))) _ ?_).trans ?_
  · intro region _ t
    rw [getRegionalModelId_no_throw ctx.cat modelId region hwf]
    rfl
  · rw [foldl_state_blocks2, flatMap_singleton_map, flatMap_singleton_map]
    rfl

/-! ## Parameter lookup lemmas -/

theorem sessionTokenObj_notin (t : Option ConfigValue) (k : String)
    (hk : k ≠ "aws_session_token") : sessionTokenObj t k = none := by
  unfold sessionTokenObj
  cases t with
  | none => rfl
  | some v =>
      show (if v.truthy = true then
        Params.ofList [("aws_session_token", ParamValue.cfg v)] else Params.empty) k = none
      by_cases hv : v.truthy = true
      · rw [if_pos hv]
        unfold Params.ofList
        simp only [List.find?]
        rw [decide_eq_false (fun h => hk h.symm)]
        rfl
      · rw [if_neg hv]
        rfl

theorem buildAwsLitellmParams_model (ctx : AwsCtx) (regionVar : Option ConfigValue)
    (additional : Params) (h : additional "model" = none) :
    buildAwsLitellmParams ctx regionVar additional "model" = none := by
  unfold buildAwsLitellmParams jsSpread
  cases hcc : ctx.cacheControlRoles with
  | none =>
      simp only [hcc, h, Option.orElse]
      rw [sessionTokenObj_notin _ _ (by decide)]
      unfold Params.ofList
      simp
  | some roles =>
      simp only [hcc, h, Option.orElse]
      unfold setKey
      rw [if_neg (by decide)]
      simp only [Option.orElse]
      rw [sessionTokenObj_notin _ _ (by decide)]
      unfold Params.ofList
      simp

theorem credOnlyParams_access (rv : Option ConfigValue)
    (c : AwsLoadBalanceCredential) :
    credOnlyParams rv c "aws_access_key_id" = some (.cfg c.accessKeyId) := by
  unfold credOnlyParams jsSpread
  rw [sessionTokenObj_notin _ _ (by decide)]
  rfl

theorem credOnlyParams_secret (rv : Option ConfigValue)
    (c : AwsLoadBalanceCredential) :
    credOnlyParams rv c "aws_secret_access_key" = some (.cfg c.secretAccessKey) := by
  unfold credOnlyParams jsSpread
  rw [sessionTokenObj_notin _ _ (by decide)]
  rfl

theorem credOnlyParams_region (rv : Option ConfigValue)
    (c : AwsLoadBalanceCredential) :
    credOnlyParams rv c "aws_region_name" = some (jsRegionVal rv) := by
  unfold credOnlyParams jsSpread
  rw [sessionTokenObj_notin _ _ (by decide)]
  rfl

theorem multiAxisEntry_region_lookup (ctx : AwsCtx) (displayName modelId : String)
    (litellmParams root : Params) (region : AwsRegion)
    (c : AwsLoadBalanceCredential) (hcc : ctx.cacheControlRoles = none)
    (hl : litellmParams "aws_region_name" = none)
    (hroot : root "litellm_params" = none) :
    (multiAxisEntry ctx displayName modelId litellmParams root region c).param
        "aws_region_name" =
      some (jsRegionVal (regionGet ctx.options.defaultRegionMap region)) := by
  unfold multiAxisEntry multiAxisParams
  simp only [hcc]
  refine mkModelDef_lookup_of_params _ _ ?_ hroot
  rw [jsSpread_of_right_none hl]
  exact credOnlyParams_region _ c

theorem multiAxisEntry_access_lookup (ctx : AwsCtx) (displayName modelId : String)
    (litellmParams root : Params) (region : AwsRegion)
    (c : AwsLoadBalanceCredential) (hcc : ctx.cacheControlRoles = none)
    (hl : litellmParams "aws_access_key_id" = none)
    (hroot : root "litellm_params" = none) :
    (multiAxisEntry ctx displayName modelId litellmParams root region c).param
        "aws_access_key_id" =
      some (ParamValue.cfg c.accessKeyId) := by
  unfold multiAxisEntry multiAxisParams
  simp only [hcc]
  refine mkModelDef_lookup_of_params _ _ ?_ hroot
  rw [jsSpread_of_right_none hl]
  exact credOnlyParams_access _ c

theorem length_flatMap_inner_map {α β : Type} (rs : List α) (cs : List β)
    (f : α → β → ModelDefinition) :
    (rs.flatMap (fun r => cs.map (f r))).length = rs.length * cs.length := by
  induction rs with
  | nil => simp
  | cons r rest ih =>
      simp only [List.flatMap_cons, List.length_append, List.length_map, ih,
        List.length_cons, Nat.succ_mul]
      omega

/-! ## Auto-commit chain lemmas -/

theorem chainStep_preserves_hasChained (s : FluentFlags × Nat × Bool) (op : ChainOp)
    (h : s.1.hasChained = true) : ((chainStep s op).1).hasChained = true := by
  rcases s with ⟨flags, n, errored⟩
  cases errored with
  | true => simpa [chainStep] using h
  | false => cases op <;> simp [chainStep]

theorem chainStep_sets_hasChained (flags : FluentFlags) (n : Nat) (op : ChainOp) :
    ((chainStep (flags, n, false) op).1).hasChained = true := by
  cases op <;> simp [chainStep]

theorem foldl_chainStep_preserves (ops : List ChainOp) :
    ∀ s : FluentFlags × Nat × Bool, s.1.hasChained = true →
      ((ops.foldl chainStep s).1).hasChained = true := by
  induction ops with
  | nil => intro s h; exact h
  | cons op rest ih =>
      intro s h
      rw [List.foldl_cons]
      exact ih _ (chainStep_preserves_hasChained s op h)

theorem chainStep_commits_of_nonterminal (s : FluentFlags × Nat × Bool) (op : ChainOp)
    (h : op.isTerminal = false) : (chainStep s op).2.1 = s.2.1 := by
  rcases s with ⟨flags, n, errored⟩
  cases errored with
  | true => rfl
  | false => cases op <;> first | rfl | cases h

theorem foldl_chainStep_commits (pre : List ChainOp)
    (h : ∀ op ∈ pre, op.isTerminal = false) :
    ∀ s : FluentFlags × Nat × Bool, (pre.foldl chainStep s).2.1 = s.2.1 := by
  induction pre with
  | nil => intro s; rfl
  | cons op rest ih =>
      intro s
      rw [List.foldl_cons]
      rw [ih (fun o ho => h o (List.mem_cons_of_mem op ho)) _]
      exact chainStep_commits_of_nonterminal s op (h op (List.mem_cons_self _ _))

/-! ## Variation-axis lemmas -/

/-- An example provider context with an empty catalog (eu-first region map).
-/
def egCtxEmptyCat : AwsCtx :=
  { options :=
      { accessKeyId := .plain "ak"
        secretAccessKey := .plain "sk"
        defaultRegionMap := [(AwsRegion.eu, .plain "re"), (AwsRegion.us, .plain "ru")]
        sessionToken := none
        detectCRIS := true }
    cacheControlRoles := none
    cat := [] }

/-- An example provider context with an empty catalog and a us-first region
map. -/
def egCtxUsFirst : AwsCtx :=
  { options :=
      { accessKeyId := .plain "ak"
        secretAccessKey := .plain "sk"
        defaultRegionMap := [(AwsRegion.us, .plain "ru"), (AwsRegion.eu, .plain "re")]
        sessionToken := none
        detectCRIS := true }
    cacheControlRoles := none
    cat := [] }

/-- A context whose catalog holds both tagged variants of `m`: the bare form
of a doubly tagged id such as `eu.eu.m` then passes the eligibility check via
a second strip, while the map has no record at the once-stripped `eu.m`
(eu-first region map). -/
def egDoubleCtx : AwsCtx :=
  { options :=
      { accessKeyId := .plain "ak"
        secretAccessKey := .plain "sk"
        defaultRegionMap := [(AwsRegion.eu, .plain "re"), (AwsRegion.us, .plain "ru")]
        sessionToken := none
        detectCRIS := true }
    cacheControlRoles := none
    cat := ["eu.m", "us.m"] }

/-- The us-first-region-map variant of `egDoubleCtx`. -/
def egDoubleCtxUsFirst : AwsCtx :=
  { options :=
      { accessKeyId := .plain "ak"
        secretAccessKey := .plain "sk"
        defaultRegionMap := [(AwsRegion.us, .plain "ru"), (AwsRegion.eu, .plain "re")]
        sessionToken := none
        detectCRIS := true }
    cacheControlRoles := none
    cat := ["eu.m", "us.m"] }

/-- An example credential pair. -/
def egCred1 : AwsLoadBalanceCredential :=
  { accessKeyId := .plain "a1", secretAccessKey := .plain "s1", sessionToken := none }

/-- A second example credential. -/
def egCred2 : AwsLoadBalanceCredential :=
  { accessKeyId := .plain "a2", secretAccessKey := .plain "s2", sessionToken := none }

/-- A credentials-only cartesian load-balance config over the two example
credentials. -/
def egCredsOnlyLbc : UnifiedLoadBalanceConfig AwsLoadBalanceCredential :=
  { dimensions := { credentials := some [egCred1, egCred2], regions := none }
    strategy := .cartesian
    fallbackConfig := none }

/-- A credentials-only cartesian config with a single credential. -/
def egOneCredLbc : UnifiedLoadBalanceConfig AwsLoadBalanceCredential :=
  { dimensions := { credentials := some [egCred1], regions := none }
    strategy := .cartesian
    fallbackConfig := none }

/-- A regions×credentials cartesian load-balance config over `[eu, us]` and
the two example credentials. -/
def egMultiLbc : UnifiedLoadBalanceConfig AwsLoadBalanceCredential :=
  { dimensions := { credentials := some [egCred1, egCred2],
                    regions := some [AwsRegion.eu, AwsRegion.us] }
    strategy := .cartesian
    fallbackConfig := none }

/-- A regions×credentials cartesian config over `[eu, us]` and one
credential. -/
def egMultiOneCredLbc : UnifiedLoadBalanceConfig AwsLoadBalanceCredential :=
  { dimensions := { credentials := some [egCred1],
                    regions := some [AwsRegion.eu, AwsRegion.us] }
    strategy := .cartesian
    fallbackConfig := none }

/-- A regions×credentials cartesian config over `[eu, us]` and the second
credential only. -/
def egMultiCred2Lbc : UnifiedLoadBalanceConfig AwsLoadBalanceCredential :=
  { dimensions := { credentials := some [egCred2],
                    regions := some [AwsRegion.eu, AwsRegion.us] }
    strategy := .cartesian
    fallbackConfig := none }

/-- A fallback-strategy load-balance config: primary `eu`, regions
`[eu, us, us]` (two non-primary declarations), default suffix. -/
def egFallbackLbc : UnifiedLoadBalanceConfig AwsLoadBalanceCredential :=
  { dimensions := { credentials := none,
                    regions := some [AwsRegion.eu, AwsRegion.us, AwsRegion.us] }
    strategy := .fallback
    fallbackConfig := some { primary := AwsRegion.eu, suffix := none } }

/-- A fallback-strategy config whose primary region `us` is its only declared
region. -/
def egFallbackUsLbc : UnifiedLoadBalanceConfig AwsLoadBalanceCredential :=
  { dimensions := { credentials := none, regions := some [AwsRegion.us] }
    strategy := .fallback
    fallbackConfig := some { primary := AwsRegion.us, suffix := none } }

/-- An empty cartesian load-balance config (no credentials, no regions). -/
def egEmptyLbc : UnifiedLoadBalanceConfig AwsLoadBalanceCredential :=
  { dimensions := { credentials := none, regions := none }
    strategy := .cartesian
    fallbackConfig := none }

/-- The catalog of the spec's end-to-end example. -/
def egNovaCat : List String :=
  ["eu.amazon.nova-pro-v1:0", "us.amazon.nova-pro-v1:0"]

/-- The example AWS context over the nova catalog. -/
def egNovaCtx : AwsCtx :=
  { options :=
      { accessKeyId := .plain "ak"
        secretAccessKey := .plain "sk"
        defaultRegionMap := [(AwsRegion.eu, .plain "re"), (AwsRegion.us, .plain "ru")]
        sessionToken := none
        detectCRIS := true }
    cacheControlRoles := none
    cat := egNovaCat }

/-- A root overlay rebinding the reserved `model_name` key. -/
def egClobberRoot : Params :=
  Params.ofList [("model_name", ParamValue.other "CLOBBER")]

/-- C1 (amended): adding a cross-region-eligible identifier as a simple model
with CRIS auto-detection enabled emits exactly 2 entries, one per supported
region, both under the unchanged display name, with the distinct resolved
paths `bedrock/eu.<bareId>` and `bedrock/us.<bareId>`, regardless of the
declared region — provided the catalog satisfies the spec's data-model
invariant (`CatalogWF`), the intent's parameter overlay does not rebind the
reserved `model` key, and its root overlay does not rebind the reserved
`model_name` / `litellm_params` entry keys (root keys are assigned onto the
entry object and would overwrite them). -/
theorem C1_amended_auto_cris (ctx : AwsCtx) (st : AwsState)
    (displayName modelId : String) (region : AwsRegion)
    (litellmParams root : Params)
    (hdetect : ctx.options.detectCRIS = true)
    (hcris : supportsCRIS ctx.cat modelId = true)
    (hwfcat : CatalogWF ctx.cat)
    (hm : litellmParams "model" = none)
    (hrn : root "model_name" = none)
    (hrl : root "litellm_params" = none) :
    ∃ e1 e2,
      addBasicModel ctx st displayName modelId region litellmParams root =
        .ok { st with models := (st.models ++ [e1, e2]) }
      ∧ e1.model_name = .str displayName
      ∧ e2.model_name = .str displayName
      ∧ e1.path = some (.str ("bedrock/" ++ ("eu." ++ bareOf modelId)))
      ∧ e2.path = some (.str ("bedrock/" ++ ("us." ++ bareOf modelId)))
      ∧ e1.path ≠ e2.path := by
  have hmem := (supportsCRIS_iff ctx.cat modelId).mp hcris
  have hbare : (parseModelId (bareOf modelId)).prefixed = false :=
    bare_unprefixed_of_wf hwfcat hmem.1
  have hbwf : WfModelId (parseModelId modelId).id := by
    rw [parseModelId_id_eq_bareOf]
    exact wf_of_unprefixed hbare
  refine ⟨crossRegionEntry ctx (parseModelId modelId).id displayName litellmParams root
      AwsRegion.eu,
    crossRegionEntry ctx (parseModelId modelId).id displayName litellmParams root
      AwsRegion.us, ?_,
    mkModelDef_name_of_unbound _ _ _ hrn, mkModelDef_name_of_unbound _ _ _ hrn,
    ?_, ?_, ?_⟩
  · unfold addBasicModel
    rw [hdetect, hcris, if_pos (by decide : (true && true) = true)]
    rw [addCrossRegionModel_eq _ _ _ _ _ _ _ hbwf]
    rfl
  · unfold crossRegionEntry
    rw [mkModelDef_path_of_unbound _ _ _
      (buildAwsLitellmParams_model ctx _ litellmParams hm) hrl]
    rw [parseModelId_id_eq_bareOf,
      crossRegionResolvedId_eu ctx.cat (bareOf modelId) hbare hmem.1 hmem.2]
  · unfold crossRegionEntry
    rw [mkModelDef_path_of_unbound _ _ _
      (buildAwsLitellmParams_model ctx _ litellmParams hm) hrl]
    rw [parseModelId_id_eq_bareOf,
      crossRegionResolvedId_us ctx.cat (bareOf modelId) hbare hmem.1 hmem.2]
  · unfold crossRegionEntry
    rw [mkModelDef_path_of_unbound _ _ _
        (buildAwsLitellmParams_model ctx _ litellmParams hm) hrl,
      mkModelDef_path_of_unbound _ _ _
        (buildAwsLitellmParams_model ctx _ litellmParams hm) hrl]
    rw [parseModelId_id_eq_bareOf,
      crossRegionResolvedId_eu ctx.cat (bareOf modelId) hbare hmem.1 hmem.2,
      crossRegionResolvedId_us ctx.cat (bareOf modelId) hbare hmem.1 hmem.2]
    intro hcontra
    rw [Option.some_inj] at hcontra
    have hstr : "bedrock/" ++ ("eu." ++ bareOf modelId) =
        "bedrock/" ++ ("us." ++ bareOf modelId) := by
      injection hcontra
    exact eu_append_ne_us_append (bareOf modelId) (string_append_left_cancel hstr)

/-- Witness for C1: the spec's end-to-end example — intent `nova-pro` /
`amazon.nova-pro-v1:0`, declared region `eu`, auto-detect on, no overlays. -/
theorem C1_witness :
    ∃ e1 e2,
      addBasicModel egNovaCtx ⟨[], []⟩ "nova-pro" "amazon.nova-pro-v1:0" AwsRegion.eu
          Params.empty Params.empty =
        .ok { models := (([] : List ModelDefinition) ++ [e1, e2]), fallbacks := [] }
      ∧ e1.model_name = .str "nova-pro"
      ∧ e2.model_name = .str "nova-pro"
      ∧ e1.path = some (.str ("bedrock/" ++ ("eu." ++ bareOf "amazon.nova-pro-v1:0")))
      ∧ e2.path = some (.str ("bedrock/" ++ ("us." ++ bareOf "amazon.nova-pro-v1:0")))
      ∧ e1.path ≠ e2.path := by
  refine C1_amended_auto_cris egNovaCtx ⟨[], []⟩ "nova-pro" "amazon.nova-pro-v1:0"
    AwsRegion.eu Params.empty Params.empty rfl (by decide) ?_ rfl rfl rfl
  intro id hid
  rcases List.mem_cons.mp hid with rfl | hid2
  · decide
  · rcases List.mem_cons.mp hid2 with rfl | h3
    · decide
    · cases h3

/-- Counterexample for C1 as stated: the intent's root overlay may bind
`model_name`; the assignment loop writes it onto the entry object, so the
two emitted entries do not bear the display name. -/
theorem C1_counterexample :
    ((addBasicModel egNovaCtx ⟨[], []⟩ "nova-pro" "amazon.nova-pro-v1:0" AwsRegion.eu
        Params.empty egClobberRoot).state.models.map (fun d => d.model_name)) =
      [EntryValue.pv (ParamValue.other "CLOBBER"),
       EntryValue.pv (ParamValue.other "CLOBBER")]
    ∧ EntryValue.pv (ParamValue.other "CLOBBER") ≠ EntryValue.str "nova-pro" := by
  constructor
  · rfl
  · intro h
    cases h

/-- C2 (amended): `getRegionalModelId` follows the documented resolution
order — (1) an identifier already tagged for the target region is returned
unchanged; (2) when its bare form is cross-region eligible and carries no
further region tag, the catalog's variant tagged for the target region is
returned (and it is in the catalog); (3) otherwise an identifier tagged for a
different region is retagged, and the substituted id is returned exactly when
it is in the catalog; (4) otherwise the result is `none` — and it throws a
TypeError precisely when the identifier is not already tagged for the target
region, its once-stripped form passes the eligibility check (which strips a
second time), and the map holds no record at that once-stripped form. -/
theorem C2_amended_resolution_order (cat : List String) (id : String)
    (region : AwsRegion) :
    (strStartsWith id (region.str ++ ".") = true →
      getRegionalModelId cat id region = .ok (some id))
    ∧ (strStartsWith id (region.str ++ ".") = false →
        supportsCRIS cat (bareOf id) = true →
        (parseModelId (bareOf id)).prefixed = false →
        getRegionalModelId cat id region = .ok (some (region.str ++ "." ++ bareOf id))
          ∧ (region.str ++ "." ++ bareOf id) ∈ cat)
    ∧ (strStartsWith id (region.str ++ ".") = false →
        supportsCRIS cat (bareOf id) = false →
        (parseModelId id).prefixed = true →
        getRegionalModelId cat id region =
          .ok (if (region.str ++ "." ++ bareOf id) ∈ cat
               then some (region.str ++ "." ++ bareOf id) else none))
    ∧ (strStartsWith id (region.str ++ ".") = false →
        supportsCRIS cat (bareOf id) = false →
        (parseModelId id).prefixed = false →
        getRegionalModelId cat id region = .ok none)
    ∧ ((∃ e, getRegionalModelId cat id region = .error e) ↔
        (strStartsWith id (region.str ++ ".") = false ∧
          supportsCRIS cat (bareOf id) = true ∧
          crisModelMap cat (bareOf id) = none)) := by
  refine ⟨fun hsw => getRegionalModelId_already hsw, ?_, ?_, ?_,
    getRegionalModelId_error_iff cat id region⟩
  · intro hsw hcris hwfb
    have hmem := (supportsCRIS_iff cat (bareOf id)).mp hcris
    rw [bareOf_of_unprefixed hwfb] at hmem
    have hceu : crisEu (crisModelMap cat) (bareOf id) = some ("eu." ++ bareOf id) := by
      rw [crisModelMap_crisEu, if_pos hmem.1]
    obtain ⟨e, he, heue⟩ := crisMap_entry_of_crisEu hceu
    have heus : e.us = some ("us." ++ bareOf id) := by
      have h := crisModelMap_crisUs cat (bareOf id)
      rw [if_pos hmem.2] at h
      unfold crisUs at h
      rw [he] at h
      exact h
    constructor
    · rw [getRegionalModelId_cris_defined hsw hcris he]
      cases region with
      | eu =>
          rw [show CrisEntry.get e AwsRegion.eu = e.eu from rfl, heue,
            jsOrNull_some_of_ne (eu_append_ne_empty (bareOf id))]
          rfl
      | us =>
          rw [show CrisEntry.get e AwsRegion.us = e.us from rfl, heus,
            jsOrNull_some_of_ne (us_append_ne_empty (bareOf id))]
          rfl
    · cases region with
      | eu => exact hmem.1
      | us => exact hmem.2
  · intro hsw hcris hp
    rw [getRegionalModelId_retag hsw hcris hp]
    by_cases hm : (region.str ++ "." ++ bareOf id) ∈ cat
    · rw [if_pos (show cat.contains (region.str ++ "." ++ bareOf id) = true by
        simpa using hm), if_pos hm]
    · rw [if_neg (show ¬cat.contains (region.str ++ "." ++ bareOf id) = true by
        simpa using hm), if_neg hm]
  · intro hsw hcris hp
    exact getRegionalModelId_miss hsw hcris hp

/-- Witness for C2 at a concrete catalog: resolving the bare eligible id
`"m"` for region `eu` returns the catalog's `eu.m` variant. -/
theorem C2_witness :
    getRegionalModelId ["eu.m", "us.m"] "m" AwsRegion.eu =
      .ok (some (AwsRegion.eu.str ++ "." ++ bareOf "m")) ∧
    (AwsRegion.eu.str ++ "." ++ bareOf "m") ∈ ["eu.m", "us.m"] :=
  (C2_amended_resolution_order ["eu.m", "us.m"] "m" AwsRegion.eu).2.1
    (by decide) (by decide) (by decide)

/-- Counterexample for C2 as stated ("the function is total — never throws"):
on the doubly tagged id `us.eu.m` with both variants of `m` in the catalog,
the eligibility check passes via a second strip but the map has no record at
the once-stripped `eu.m`, so the source's `crisModelMap[lookupId][region]`
throws a TypeError. -/
theorem C2_counterexample :
    getRegionalModelId ["eu.m", "us.m"] "us.eu.m" AwsRegion.eu =
      .error typeErrorMsg := by
  rfl

/-- C3: `supportsCRIS` is true exactly when, after stripping any region tag,
the bare identifier has a tagged variant in the catalog for both supported
regions; removing either region's entry from a duplicate-free catalog makes
it false. -/
theorem C3_supportsCRIS_characterisation (cat : List String) (modelId : String) :
    (supportsCRIS cat modelId = true ↔
      ("eu." ++ bareOf modelId) ∈ cat ∧ ("us." ++ bareOf modelId) ∈ cat)
    ∧ (cat.Nodup →
        supportsCRIS (cat.erase ("eu." ++ bareOf modelId)) modelId = false)
    ∧ (cat.Nodup →
        supportsCRIS (cat.erase ("us." ++ bareOf modelId)) modelId = false) := by
  refine ⟨supportsCRIS_iff cat modelId, ?_, ?_⟩
  · intro hnd
    apply bool_eq_false_of_ne_true
    intro htrue
    have hmem := ((supportsCRIS_iff _ modelId).mp htrue).1
    rw [List.Nodup.mem_erase_iff hnd] at hmem
    exact hmem.1 rfl
  · intro hnd
    apply bool_eq_false_of_ne_true
    intro htrue
    have hmem := ((supportsCRIS_iff _ modelId).mp htrue).2
    rw [List.Nodup.mem_erase_iff hnd] at hmem
    exact hmem.1 rfl

/-- Witness for C3: with both tagged variants present `supportsCRIS` holds,
and erasing the `eu` (resp. `us`) entry falsifies it. -/
theorem C3_witness :
    supportsCRIS ["eu.m", "us.m"] "m" = true ∧
    supportsCRIS (["eu.m", "us.m"].erase ("eu." ++ bareOf "m")) "m" = false ∧
    supportsCRIS (["eu.m", "us.m"].erase ("us." ++ bareOf "m")) "m" = false :=
  ⟨(C3_supportsCRIS_characterisation ["eu.m", "us.m"] "m").1.mpr (by decide),
   (C3_supportsCRIS_characterisation ["eu.m", "us.m"] "m").2.1 (by decide),
   (C3_supportsCRIS_characterisation ["eu.m", "us.m"] "m").2.2 (by decide)⟩

/-- C4 (amended): for identifiers satisfying the spec's ModelIdentifier
invariant (bare form untagged, so resolution cannot throw), the
regions×credentials cartesian path emits exactly `R×C` entries appended in
region-major order (regions outer, credentials inner); when the root overlay
does not rebind `model_name` they all carry the display name, and when the
overlays do not rebind the region/auth keys (and no cache-control override is
set) the emitted `(aws_region_name, aws_access_key_id)` pairs read back in
that region-major order. -/
theorem C4_amended_region_major (ctx : AwsCtx) (st : AwsState)
    (displayName modelId : String)
    (lbc : UnifiedLoadBalanceConfig AwsLoadBalanceCredential)
    (litellmParams root : Params) (rs : List AwsRegion)
    (cs : List AwsLoadBalanceCredential)
    (hwf : WfModelId modelId)
    (hr : lbc.dimensions.regions.getD [] = rs) (hrne : rs ≠ [])
    (hc : lbc.dimensions.credentials.getD [] = cs) (hcne : cs ≠ []) :
    ∃ new,
      addCartesianLoadBalancedModel ctx st displayName modelId lbc litellmParams root =
        .ok { st with models := (st.models ++ new) }
      ∧ new = rs.flatMap (fun region =>
          cs.map (multiAxisEntry ctx displayName modelId litellmParams root region))
      ∧ new.length = rs.length * cs.length
      ∧ (root "model_name" = none → ∀ d ∈ new, d.model_name = .str displayName)
      ∧ (root "litellm_params" = none →
          litellmParams "aws_region_name" = none →
          litellmParams "aws_access_key_id" = none →
          ctx.cacheControlRoles = none →
          new.map (fun d => (d.param "aws_region_name", d.param "aws_access_key_id")) =
            rs.flatMap (fun region => cs.map (fun c =>
              (some (jsRegionVal (regionGet ctx.options.defaultRegionMap region)),
               some (ParamValue.cfg c.accessKeyId))))) := by
  refine ⟨rs.flatMap (fun region =>
      cs.map (multiAxisEntry ctx displayName modelId litellmParams root region)),
    addCartesian_multi ctx st displayName modelId lbc litellmParams root rs cs
      hwf hr hrne hc hcne,
    rfl, length_flatMap_inner_map rs cs _, ?_, ?_⟩
  · intro hroot d hd
    rw [List.mem_flatMap] at hd
    obtain ⟨region, _, hd⟩ := hd
    rw [List.mem_map] at hd
    obtain ⟨c, _, rfl⟩ := hd
    exact mkModelDef_name_of_unbound _ _ _ hroot
  · intro hroot hlr hla hcc
    clear hr hrne
    induction rs with
    | nil => rfl
    | cons r rest ih =>
        simp only [List.flatMap_cons, List.map_append, ih]
        congr 1
        rw [List.map_map]
        apply List.map_congr_left
        intro c _
        simp only [Function.comp_apply]
        rw [multiAxisEntry_region_lookup _ _ _ _ _ _ _ hcc hlr hroot,
          multiAxisEntry_access_lookup _ _ _ _ _ _ _ hcc hla hroot]

/-- Witness for C4: 2 regions × 2 credentials over a well-formed identifier. -/
theorem C4_witness :
    ∃ new,
      addCartesianLoadBalancedModel egCtxEmptyCat ⟨[], []⟩ "disp" "mid" egMultiLbc
          Params.empty Params.empty =
        .ok { models := (([] : List ModelDefinition) ++ new), fallbacks := [] }
      ∧ new = [AwsRegion.eu, AwsRegion.us].flatMap (fun region =>
          [egCred1, egCred2].map
            (multiAxisEntry egCtxEmptyCat "disp" "mid" Params.empty Params.empty region))
      ∧ new.length = [AwsRegion.eu, AwsRegion.us].length * [egCred1, egCred2].length
      ∧ (Params.empty "model_name" = none → ∀ d ∈ new, d.model_name = .str "disp")
      ∧ (Params.empty "litellm_params" = none →
          Params.empty "aws_region_name" = none →
          Params.empty "aws_access_key_id" = none →
          egCtxEmptyCat.cacheControlRoles = none →
          new.map (fun d => (d.param "aws_region_name", d.param "aws_access_key_id")) =
            [AwsRegion.eu, AwsRegion.us].flatMap (fun region => [egCred1, egCred2].map (fun c =>
              (some (jsRegionVal (regionGet egCtxEmptyCat.options.defaultRegionMap region)),
               some (ParamValue.cfg c.accessKeyId))))) :=
  C4_amended_region_major egCtxEmptyCat ⟨[], []⟩ "disp" "mid" egMultiLbc
    Params.empty Params.empty [AwsRegion.eu, AwsRegion.us] [egCred1, egCred2]
    (by decide) rfl (by decide) rfl (by decide)

/-- Counterexample for C4 as stated: with `modelId = "eu.eu.m"` and both
variants of `m` in the catalog, the region loop appends the `eu` credential
block (the id is literally eu-tagged) and then throws a TypeError resolving
region `us` — one entry is emitted instead of `R×C = 2`. -/
theorem C4_counterexample :
    (addCartesianLoadBalancedModel egDoubleCtx ⟨[], []⟩ "disp" "eu.eu.m"
        egMultiOneCredLbc Params.empty Params.empty).isThrown = true
    ∧ (addCartesianLoadBalancedModel egDoubleCtx ⟨[], []⟩ "disp" "eu.eu.m"
        egMultiOneCredLbc Params.empty Params.empty).state.models.length = 1
    ∧ (1 : Nat) ≠ [AwsRegion.eu, AwsRegion.us].length * [egCred1].length := by
  refine ⟨rfl, rfl, by decide⟩

/-- C5 (amended): for identifiers satisfying the spec's ModelIdentifier
invariant, fallback expansion with a declared primary region and K other
declared regions emits exactly `1 + K` entries — the primary under the
unmodified display name, plus one entry per other region named
`displayName ++ suffix` (suffix defaulting to `"-fallback"`) — and records
exactly K fallback relations, every one mapping the display name to the same
single fallback name; the naming clauses assume the root overlay does not
rebind `model_name`. -/
theorem C5_amended_fallback_expansion (ctx : AwsCtx) (st : AwsState)
    (displayName modelId : String)
    (lbc : UnifiedLoadBalanceConfig AwsLoadBalanceCredential)
    (litellmParams root : Params) (rs : List AwsRegion) (fc : FallbackConfig)
    (hwf : WfModelId modelId)
    (hr : lbc.dimensions.regions.getD [] = rs) (hrne : rs ≠ [])
    (hfc : lbc.fallbackConfig = some fc)
    (hrootn : root "model_name" = none) :
    ∃ st',
      addFallbackLoadBalancedModel ctx st displayName modelId lbc litellmParams root =
        .ok st'
      ∧ st'.models = (st.models ++
          [fallbackPrimaryEntry ctx displayName modelId litellmParams root fc.primary]) ++
          (rs.filter (fun r => decide (r ≠ fc.primary))).map
            (fallbackSecondaryEntry ctx displayName modelId litellmParams root
              (jsOrString fc.suffix "-fallback"))
      ∧ st'.models.length = st.models.length +
          (1 + (rs.filter (fun r => decide (r ≠ fc.primary))).length)
      ∧ (fallbackPrimaryEntry ctx displayName modelId litellmParams root
          fc.primary).model_name = .str displayName
      ∧ (∀ d ∈ (rs.filter (fun r => decide (r ≠ fc.primary))).map
            (fallbackSecondaryEntry ctx displayName modelId litellmParams root
              (jsOrString fc.suffix "-fallback")),
          d.model_name = .str (displayName ++ jsOrString fc.suffix "-fallback"))
      ∧ st'.fallbacks = st.fallbacks ++
          List.replicate (rs.filter (fun r => decide (r ≠ fc.primary))).length
            (displayName, [displayName ++ jsOrString fc.suffix "-fallback"])
      ∧ st'.fallbacks.length = st.fallbacks.length +
          (rs.filter (fun r => decide (r ≠ fc.primary))).length := by
  rw [addFallback_eq ctx st displayName modelId lbc litellmParams root rs fc hwf hr hrne hfc]
  refine ⟨_, rfl, rfl, ?_, mkModelDef_name_of_unbound _ _ _ hrootn, ?_, ?_, ?_⟩
  · simp only [List.length_append, List.length_map, List.length_singleton]
    omega
  · intro d hd
    rw [List.mem_map] at hd
    obtain ⟨r, _, rfl⟩ := hd
    exact mkModelDef_name_of_unbound _ _ _ hrootn
  · show st.fallbacks ++ _ = _
    congr 1
    rw [List.map_const']
  · simp

/-- Witness for C5: primary `eu` plus two non-primary `us` declarations give
`1 + 2` entries and 2 identical fallback relations. -/
theorem C5_witness :
    ∃ st',
      addFallbackLoadBalancedModel egCtxEmptyCat ⟨[], []⟩ "disp" "mid" egFallbackLbc
          Params.empty Params.empty = .ok st'
      ∧ st'.models = (([] : List ModelDefinition) ++
          [fallbackPrimaryEntry egCtxEmptyCat "disp" "mid" Params.empty Params.empty
            AwsRegion.eu]) ++
          ([AwsRegion.eu, AwsRegion.us, AwsRegion.us].filter
              (fun r => decide (r ≠ AwsRegion.eu))).map
            (fallbackSecondaryEntry egCtxEmptyCat "disp" "mid" Params.empty Params.empty
              (jsOrString none "-fallback"))
      ∧ st'.models.length = ([] : List ModelDefinition).length +
          (1 + ([AwsRegion.eu, AwsRegion.us, AwsRegion.us].filter
              (fun r => decide (r ≠ AwsRegion.eu))).length)
      ∧ (fallbackPrimaryEntry egCtxEmptyCat "disp" "mid" Params.empty Params.empty
          AwsRegion.eu).model_name = .str "disp"
      ∧ (∀ d ∈ ([AwsRegion.eu, AwsRegion.us, AwsRegion.us].filter
              (fun r => decide (r ≠ AwsRegion.eu))).map
            (fallbackSecondaryEntry egCtxEmptyCat "disp" "mid" Params.empty Params.empty
              (jsOrString none "-fallback")),
          d.model_name = .str ("disp" ++ jsOrString none "-fallback"))
      ∧ st'.fallbacks = ([] : List (String × List String)) ++
          List.replicate ([AwsRegion.eu, AwsRegion.us, AwsRegion.us].filter
              (fun r => decide (r ≠ AwsRegion.eu))).length
            ("disp", ["disp" ++ jsOrString none "-fallback"])
      ∧ st'.fallbacks.length = ([] : List (String × List String)).length +
          ([AwsRegion.eu, AwsRegion.us, AwsRegion.us].filter
              (fun r => decide (r ≠ AwsRegion.eu))).length :=
  C5_amended_fallback_expansion egCtxEmptyCat ⟨[], []⟩ "disp" "mid" egFallbackLbc
    Params.empty Params.empty [AwsRegion.eu, AwsRegion.us, AwsRegion.us]
    { primary := AwsRegion.eu, suffix := none }
    (by decide) rfl (by decide) rfl rfl

/-- Counterexample for C5 as stated: with `modelId = "eu.eu.m"` and both
variants of `m` in the catalog, resolving the primary region `us` throws a
TypeError before the primary entry is pushed — zero entries and zero
relations are emitted instead of `1 + K`. -/
theorem C5_counterexample :
    (addFallbackLoadBalancedModel egDoubleCtx ⟨[], []⟩ "disp" "eu.eu.m" egFallbackUsLbc
        Params.empty Params.empty).isThrown = true
    ∧ (addFallbackLoadBalancedModel egDoubleCtx ⟨[], []⟩ "disp" "eu.eu.m" egFallbackUsLbc
        Params.empty Params.empty).state.models.length = 0
    ∧ (addFallbackLoadBalancedModel egDoubleCtx ⟨[], []⟩ "disp" "eu.eu.m" egFallbackUsLbc
        Params.empty Params.empty).state.fallbacks.length = 0
    ∧ (0 : Nat) ≠ 1 + ([AwsRegion.us].filter
        (fun r => decide (r ≠ AwsRegion.us))).length := by
  refine ⟨rfl, rfl, rfl, by decide⟩

/-- C7 (amended): for identifiers satisfying the spec's ModelIdentifier
invariant, the credentials-only cartesian path emits exactly one entry per
credential, all with the identical display name, each carrying that
credential's auth fields, all pointing at the single region variable taken
from the first entry of the provider's default region map; the readback
clauses assume the root overlay leaves `model_name` / `litellm_params`
unbound. -/
theorem C7_amended_credentials_only (ctx : AwsCtx) (st : AwsState)
    (displayName modelId : String)
    (lbc : UnifiedLoadBalanceConfig AwsLoadBalanceCredential)
    (litellmParams root : Params) (cs : List AwsLoadBalanceCredential)
    (hd : AwsRegion × ConfigValue) (tl : List (AwsRegion × ConfigValue))
    (hwf : WfModelId modelId)
    (hc : lbc.dimensions.credentials.getD [] = cs) (hcne : cs ≠ [])
    (hr : lbc.dimensions.regions.getD [] = [])
    (hmap : ctx.options.defaultRegionMap = hd :: tl)
    (hrootn : root "model_name" = none)
    (hrootl : root "litellm_params" = none) :
    ∃ new, addCartesianLoadBalancedModel ctx st displayName modelId lbc litellmParams root =
        .ok { st with models := (st.models ++ new) }
      ∧ new.length = cs.length
      ∧ new.map (fun d => (d.model_name, d.param "aws_access_key_id",
            d.param "aws_secret_access_key", d.param "aws_region_name")) =
          cs.map (fun c => (EntryValue.str displayName, some (ParamValue.cfg c.accessKeyId),
            some (ParamValue.cfg c.secretAccessKey), some (ParamValue.cfg hd.2))) := by
  refine ⟨cs.map (credsOnlyEntry ctx displayName modelId litellmParams root),
    addCartesian_credsOnly ctx st displayName modelId lbc litellmParams root cs
      hwf hc hcne hr,
    by simp, ?_⟩
  have hrv : credsOnlyRegionVar ctx = some hd.2 := by
    unfold credsOnlyRegionVar credsOnlyDefaultRegion regionGet
    rw [hmap]
    simp
  rw [List.map_map]
  apply List.map_congr_left
  intro c _
  simp only [Function.comp_apply]
  unfold credsOnlyEntry
  have hname := mkModelDef_name_of_unbound displayName
    ("bedrock/" ++ credsOnlyResolvedId ctx modelId)
    (jsSpread litellmParams (credOnlyParams (credsOnlyRegionVar ctx) c)) hrootn
  have hacc := mkModelDef_lookup_of_params (l := jsSpread litellmParams
      (credOnlyParams (credsOnlyRegionVar ctx) c)) (r := root)
    displayName ("bedrock/" ++ credsOnlyResolvedId ctx modelId)
    (jsSpread_of_right_some (credOnlyParams_access _ c)) hrootl
  have hsec := mkModelDef_lookup_of_params (l := jsSpread litellmParams
      (credOnlyParams (credsOnlyRegionVar ctx) c)) (r := root)
    displayName ("bedrock/" ++ credsOnlyResolvedId ctx modelId)
    (jsSpread_of_right_some (credOnlyParams_secret _ c)) hrootl
  have hreg := mkModelDef_lookup_of_params (l := jsSpread litellmParams
      (credOnlyParams (credsOnlyRegionVar ctx) c)) (r := root)
    displayName ("bedrock/" ++ credsOnlyResolvedId ctx modelId)
    (jsSpread_of_right_some (credOnlyParams_region _ c)) hrootl
  rw [hname, hacc, hsec, hreg, hrv]
  rfl

/-- Witness for C7: two credentials, no regions, a two-entry region map
starting with `us`, over a well-formed identifier. -/
theorem C7_witness :
    ∃ new,
      addCartesianLoadBalancedModel egCtxUsFirst ⟨[], []⟩ "disp" "mid" egCredsOnlyLbc
          Params.empty Params.empty =
        .ok { models := (([] : List ModelDefinition) ++ new), fallbacks := [] }
      ∧ new.length = [egCred1, egCred2].length
      ∧ new.map (fun d => (d.model_name, d.param "aws_access_key_id",
            d.param "aws_secret_access_key", d.param "aws_region_name")) =
          [egCred1, egCred2].map (fun c => (EntryValue.str "disp",
            some (ParamValue.cfg c.accessKeyId),
            some (ParamValue.cfg c.secretAccessKey),
            some (ParamValue.cfg (AwsRegion.us, ConfigValue.plain "ru").2))) :=
  C7_amended_credentials_only egCtxUsFirst ⟨[], []⟩ "disp" "mid" egCredsOnlyLbc
    Params.empty Params.empty [egCred1, egCred2]
    (AwsRegion.us, .plain "ru") [(AwsRegion.eu, .plain "re")]
    (by decide) rfl (by decide) rfl rfl rfl rfl

/-- Counterexample for C7 as stated: with `modelId = "eu.eu.m"`, a us-first
region map and both variants of `m` in the catalog, computing the resolved id
for the default region throws a TypeError — zero entries are emitted instead
of one per credential. -/
theorem C7_counterexample :
    (addCartesianLoadBalancedModel egDoubleCtxUsFirst ⟨[], []⟩ "disp" "eu.eu.m"
        egOneCredLbc Params.empty Params.empty).isThrown = true
    ∧ (addCartesianLoadBalancedModel egDoubleCtxUsFirst ⟨[], []⟩ "disp" "eu.eu.m"
        egOneCredLbc Params.empty Params.empty).state.models.length = 0
    ∧ (0 : Nat) ≠ [egCred1].length := by
  refine ⟨rfl, rfl, by decide⟩

/-- C8 (amended): misuse fails fast with a hard error naming the violated
precondition — an unsupported strategy on Gemini, zero credentials on Gemini,
zero credentials and zero regions on the AWS cartesian path — and the
registry is untouched at each such error. For identifiers satisfying the
spec's ModelIdentifier invariant, AWS expansion is all-or-nothing (it either
throws with the registry untouched or appends its full block); Gemini
expansion is all-or-nothing unconditionally. (In general a mid-expansion
resolver TypeError can leave a partial AWS block; see the counterexample.) -/
theorem C8_amended_fail_fast :
    (∀ (models : List ModelDefinition) (displayName modelId : String)
        (lbc : UnifiedLoadBalanceConfig ConfigValue) (litellmParams root : Params),
        lbc.strategy ≠ LoadBalanceStrategy.cartesian →
        geminiAddLoadBalancedModel models displayName modelId lbc litellmParams root =
          .thrown models ("Gemini only supports cartesian load balancing strategy, got: " ++
            lbc.strategy.str))
    ∧ (∀ (models : List ModelDefinition) (displayName modelId : String)
        (lbc : UnifiedLoadBalanceConfig ConfigValue) (litellmParams root : Params),
        lbc.strategy = LoadBalanceStrategy.cartesian →
        lbc.dimensions.credentials.getD [] = [] →
        geminiAddLoadBalancedModel models displayName modelId lbc litellmParams root =
          .thrown models "At least one API key must be specified for Gemini load balancing")
    ∧ (∀ (ctx : AwsCtx) (st : AwsState) (displayName modelId : String)
        (lbc : UnifiedLoadBalanceConfig AwsLoadBalanceCredential)
        (litellmParams root : Params),
        lbc.strategy = LoadBalanceStrategy.cartesian →
        lbc.dimensions.credentials.getD [] = [] →
        lbc.dimensions.regions.getD [] = [] →
        awsAddLoadBalancedModel ctx st displayName modelId lbc litellmParams root =
          .thrown st "At least one credential or region must be specified for cartesian load balancing")
    ∧ (∀ (ctx : AwsCtx) (st : AwsState) (displayName modelId : String)
        (lbc : UnifiedLoadBalanceConfig AwsLoadBalanceCredential)
        (litellmParams root : Params), WfModelId modelId →
        (∃ e, awsAddLoadBalancedModel ctx st displayName modelId lbc litellmParams root =
          .thrown st e) ∨
        (∃ newModels newFallbacks,
          awsAddLoadBalancedModel ctx st displayName modelId lbc litellmParams root =
            .ok { models := (st.models ++ newModels),
                  fallbacks := (st.fallbacks ++ newFallbacks) }))
    ∧ (∀ (models : List ModelDefinition) (displayName modelId : String)
        (lbc : UnifiedLoadBalanceConfig ConfigValue) (litellmParams root : Params),
        (∃ e, geminiAddLoadBalancedModel models displayName modelId lbc litellmParams root =
          .thrown models e) ∨
        (∃ new, geminiAddLoadBalancedModel models displayName modelId lbc litellmParams root =
          .ok (models ++ new))) := by
  have gemini_bad_strategy : ∀ (models : List ModelDefinition)
      (displayName modelId : String) (lbc : UnifiedLoadBalanceConfig ConfigValue)
      (litellmParams root : Params),
      lbc.strategy ≠ LoadBalanceStrategy.cartesian →
      geminiAddLoadBalancedModel models displayName modelId lbc litellmParams root =
        .thrown models ("Gemini only supports cartesian load balancing strategy, got: " ++
          lbc.strategy.str) := by
    intro models displayName modelId lbc litellmParams root h
    unfold geminiAddLoadBalancedModel
    rw [if_pos h]
  have gemini_no_creds : ∀ (models : List ModelDefinition)
      (displayName modelId : String) (lbc : UnifiedLoadBalanceConfig ConfigValue)
      (litellmParams root : Params),
      lbc.strategy = LoadBalanceStrategy.cartesian →
      lbc.dimensions.credentials.getD [] = [] →
      geminiAddLoadBalancedModel models displayName modelId lbc litellmParams root =
        .thrown models "At least one API key must be specified for Gemini load balancing" := by
    intro models displayName modelId lbc litellmParams root hs hc
    unfold geminiAddLoadBalancedModel
    rw [if_neg (fun hne => hne hs)]
    dsimp only
    rw [hc]
    rfl
  have aws_empty : ∀ (ctx : AwsCtx) (st : AwsState) (displayName modelId : String)
      (lbc : UnifiedLoadBalanceConfig AwsLoadBalanceCredential)
      (litellmParams root : Params),
      lbc.strategy = LoadBalanceStrategy.cartesian →
      lbc.dimensions.credentials.getD [] = [] →
      lbc.dimensions.regions.getD [] = [] →
      awsAddLoadBalancedModel ctx st displayName modelId lbc litellmParams root =
        .thrown st "At least one credential or region must be specified for cartesian load balancing" := by
    intro ctx st displayName modelId lbc litellmParams root hs hc hr
    unfold awsAddLoadBalancedModel
    rw [hs]
    unfold addCartesianLoadBalancedModel
    rw [hc, hr]
    dsimp only
    rw [if_pos ⟨rfl, rfl⟩]
  refine ⟨gemini_bad_strategy, gemini_no_creds, aws_empty, ?_, ?_⟩
  · intro ctx st displayName modelId lbc litellmParams root hwf
    cases hst : lbc.strategy with
    | cartesian =>
        by_cases hc : lbc.dimensions.credentials.getD [] = []
        · by_cases hr : lbc.dimensions.regions.getD [] = []
          · exact Or.inl ⟨_, aws_empty ctx st displayName modelId lbc litellmParams root
              hst hc hr⟩
          · refine Or.inr ⟨(lbc.dimensions.regions.getD []).map
              (regionsOnlyEntry ctx displayName modelId litellmParams root), [], ?_⟩
            have h := addCartesian_regionsOnly ctx st displayName modelId lbc
              litellmParams root (lbc.dimensions.regions.getD []) hwf rfl hr hc
            unfold awsAddLoadBalancedModel
            rw [hst, h]
            simp
        · by_cases hr : lbc.dimensions.regions.getD [] = []
          · refine Or.inr ⟨(lbc.dimensions.credentials.getD []).map
              (credsOnlyEntry ctx displayName modelId litellmParams root), [], ?_⟩
            have h := addCartesian_credsOnly ctx st displayName modelId lbc
              litellmParams root (lbc.dimensions.credentials.getD []) hwf rfl hc hr
            unfold awsAddLoadBalancedModel
            rw [hst, h]
            simp
          · refine Or.inr ⟨(lbc.dimensions.regions.getD []).flatMap (fun region =>
              (lbc.dimensions.credentials.getD []).map
                (multiAxisEntry ctx displayName modelId litellmParams root region)), [], ?_⟩
            have h := addCartesian_multi ctx st displayName modelId lbc
              litellmParams root (lbc.dimensions.regions.getD [])
              (lbc.dimensions.credentials.getD []) hwf rfl hr rfl hc
            unfold awsAddLoadBalancedModel
            rw [hst, h]
            simp
    | fallback =>
        cases hfc : lbc.fallbackConfig with
        | none =>
            refine Or.inl
              ⟨"Fallback configuration is required when using fallback strategy", ?_⟩
            unfold awsAddLoadBalancedModel
            rw [hst]
            dsimp only
            unfold addFallbackLoadBalancedModel
            rw [hfc]
        | some fc =>
            by_cases hr : lbc.dimensions.regions.getD [] = []
            · refine Or.inl
                ⟨"At least one region must be specified for fallback load balancing", ?_⟩
              unfold awsAddLoadBalancedModel
              rw [hst]
              dsimp only
              unfold addFallbackLoadBalancedModel
              rw [hfc, hr]
              dsimp only
              simp
            · refine Or.inr ⟨[fallbackPrimaryEntry ctx displayName modelId litellmParams
                  root fc.primary] ++
                ((lbc.dimensions.regions.getD []).filter
                    (fun r => decide (r ≠ fc.primary))).map
                  (fallbackSecondaryEntry ctx displayName modelId litellmParams root
                    (jsOrString fc.suffix "-fallback")),
                ((lbc.dimensions.regions.getD []).filter
                    (fun r => decide (r ≠ fc.primary))).map
                  (fun _ => (displayName,
                    [displayName ++ jsOrString fc.suffix "-fallback"])), ?_⟩
              have h := addFallback_eq ctx st displayName modelId lbc litellmParams root
                (lbc.dimensions.regions.getD []) fc hwf rfl hr hfc
              unfold awsAddLoadBalancedModel
              rw [hst, h]
              simp
  · intro models displayName modelId lbc litellmParams root
    by_cases hs : lbc.strategy = LoadBalanceStrategy.cartesian
    · by_cases hc : lbc.dimensions.credentials.getD [] = []
      · exact Or.inl ⟨_, gemini_no_creds models displayName modelId lbc litellmParams root
          hs hc⟩
      · refine Or.inr ⟨(lbc.dimensions.credentials.getD []).map (fun apiKey =>
          mkModelDef displayName ("gemini/" ++ modelId)
            (jsSpread litellmParams
              (Params.ofList [("api_key", .cfg (ApiKeyCredential.mk apiKey).apiKey)]))
            root), ?_⟩
        have hlen : (lbc.dimensions.credentials.getD []).length ≠ 0 := by
          intro h
          exact hc (List.length_eq_zero.mp h)
        unfold geminiAddLoadBalancedModel
        rw [if_neg (fun hne => hne hs)]
        dsimp only
        rw [if_neg hlen]
        rw [addLoadBalancedModel_eq]
        dsimp only
        rw [List.map_map]
        rfl
    · exact Or.inl ⟨_, gemini_bad_strategy models displayName modelId lbc litellmParams
        root hs⟩

/-- Witness for C8: the empty cartesian request fails with the precondition
error and an untouched registry. -/
theorem C8_witness :
    awsAddLoadBalancedModel egCtxEmptyCat ⟨[], []⟩ "disp" "mid" egEmptyLbc
        Params.empty Params.empty =
      .thrown ⟨[], []⟩
        "At least one credential or region must be specified for cartesian load balancing" :=
  (C8_amended_fail_fast).2.2.1 egCtxEmptyCat ⟨[], []⟩ "disp" "mid" egEmptyLbc
    Params.empty Params.empty rfl rfl rfl

/-- Counterexample for C8 as stated ("every call either fails with the
registry untouched or appends its full block"): with `modelId = "eu.eu.m"`
and both variants of `m` in the catalog, the multi-axis call appends the `eu`
block and then throws resolving `us` — it fails AND the registry is changed. -/
theorem C8_counterexample :
    (awsAddLoadBalancedModel egDoubleCtx ⟨[], []⟩ "disp" "eu.eu.m" egMultiCred2Lbc
        Params.empty Params.empty).isThrown = true
    ∧ (awsAddLoadBalancedModel egDoubleCtx ⟨[], []⟩ "disp" "eu.eu.m" egMultiCred2Lbc
        Params.empty Params.empty).state.models.length = 1
    ∧ (1 : Nat) ≠ 0 := by
  refine ⟨rfl, rfl, by decide⟩

/-- C9 (amended): once any chained call runs in the same synchronous stack as
construction, the deferred auto-commit observes `hasChained` and emits
nothing — total commits equal the explicit calls' commits. A chain of
configuration calls ending in `build` (with no configuration error) commits
exactly once; a chain of only configuration calls commits zero times (not
once, as the original claim stated). -/
theorem C9_amended_auto_commit :
    (∀ ops : List ChainOp, ops ≠ [] →
        (runChain ops).1.hasChained = true ∧ totalCommits ops = (runChain ops).2.1)
    ∧ (∀ pre : List ChainOp, (∀ op ∈ pre, op.isTerminal = false) →
        (runChain pre).2.2 = false →
        totalCommits (pre ++ [ChainOp.build]) = 1)
    ∧ (∀ pre : List ChainOp, (∀ op ∈ pre, op.isTerminal = false) →
        (runChain pre).2.1 = 0) := by
  have hchained : ∀ ops : List ChainOp, ops ≠ [] →
      (runChain ops).1.hasChained = true := by
    intro ops hne
    cases ops with
    | nil => exact absurd rfl hne
    | cons op rest =>
        unfold runChain
        rw [List.foldl_cons]
        exact foldl_chainStep_preserves rest _
          (chainStep_sets_hasChained _ _ op)
  have hcommits0 : ∀ pre : List ChainOp, (∀ op ∈ pre, op.isTerminal = false) →
      (runChain pre).2.1 = 0 := by
    intro pre h
    unfold runChain
    rw [foldl_chainStep_commits pre h]
  refine ⟨?_, ?_, hcommits0⟩
  · intro ops hne
    refine ⟨hchained ops hne, ?_⟩
    unfold totalCommits
    dsimp only
    rw [hchained ops hne]
    simp
  · intro pre hcfg herr
    unfold totalCommits
    unfold runChain at herr ⊢
    rw [List.foldl_append]
    rcases hs : (pre.foldl chainStep
      ({ hasChained := false, hasLoadBalanceConfig := false }, 0, false)) with ⟨flags, n, e⟩
    have hn : n = 0 := by
      have := foldl_chainStep_commits pre hcfg
        ({ hasChained := false, hasLoadBalanceConfig := false }, 0, false)
      rw [hs] at this
      exact this
    have he : e = false := by
      rw [hs] at herr
      exact herr
    subst hn
    subst he
    simp [chainStep]

/-- Witness for C9: a configuration chain ending in `build` commits exactly
once in total. -/
theorem C9_witness :
    totalCommits ([ChainOp.withLoadBalancing, ChainOp.withCredentials] ++
      [ChainOp.build]) = 1 :=
  (C9_amended_auto_commit).2.1 [ChainOp.withLoadBalancing, ChainOp.withCredentials]
    (by decide) (by decide)

/-- Counterexample for C9: a builder on which only the chained configuration
call `withLoadBalancing` runs is never committed — the deferred action emits
nothing (`hasChained` is set) and no terminal call committed, so the total is
0, not exactly once. -/
theorem C9_counterexample :
    totalCommits [ChainOp.withLoadBalancing] = 0 ∧
    totalCommits [ChainOp.withLoadBalancing] ≠ 1 := by
  decide

/-- C10 (amended): for base identifiers satisfying the spec's ModelIdentifier
invariant, `addCrossRegionModel` emits exactly one entry per requested region
(the `if (modelId)` truthiness guard never skips), appends them in order,
touches no fallback state; the entries carry the display name when the root
overlay leaves `model_name` unbound, and when regional resolution returns
`null` the emitted path uses the fabricated tagged id
`region + "." + baseModelId` rather than the base identifier verbatim. -/
theorem C10_amended_per_region (ctx : AwsCtx) (st : AwsState)
    (baseModelId displayName : String) (regions : List AwsRegion)
    (litellmParams root : Params) (hwf : WfModelId baseModelId) :
    (addCrossRegionModel ctx st baseModelId displayName regions litellmParams root =
      .ok { st with models := st.models ++ regions.map (crossRegionEntry ctx baseModelId displayName litellmParams root) })
    ∧ ((addCrossRegionModel ctx st baseModelId displayName regions litellmParams
          root).state.models.length = st.models.length + regions.length)
    ∧ ((addCrossRegionModel ctx st baseModelId displayName regions litellmParams
          root).state.fallbacks = st.fallbacks)
    ∧ (root "model_name" = none → ∀ region : AwsRegion,
        (crossRegionEntry ctx baseModelId displayName litellmParams root
          region).model_name = .str displayName)
    ∧ (∀ region : AwsRegion,
        getRegionalModelId ctx.cat baseModelId region = .ok none →
        litellmParams "model" = none →
        root "litellm_params" = none →
        (crossRegionEntry ctx baseModelId displayName litellmParams root region).path =
          some (.str ("bedrock/" ++ (region.str ++ "." ++ baseModelId)))) := by
  have heq := addCrossRegionModel_eq ctx st baseModelId displayName regions
    litellmParams root hwf
  refine ⟨heq, ?_, ?_, ?_, ?_⟩
  · rw [heq]
    simp [JsResult.state]
  · rw [heq]
    rfl
  · intro hroot region
    exact mkModelDef_name_of_unbound _ _ _ hroot
  · intro region hnone hm hroot
    unfold crossRegionEntry
    rw [mkModelDef_path_of_unbound _ _ _
      (buildAwsLitellmParams_model ctx _ litellmParams hm) hroot]
    unfold crossRegionResolvedId
    rw [resolveOk_of_ok hnone]
    rfl

/-- Witness for C10: with an empty catalog, resolution misses and the entry
path is the fabricated `bedrock/eu.some-base`. -/
theorem C10_witness :
    (crossRegionEntry egCtxEmptyCat "some-base" "disp" Params.empty Params.empty
        AwsRegion.eu).path =
      some (.str ("bedrock/" ++ (AwsRegion.eu.str ++ "." ++ "some-base"))) :=
  (C10_amended_per_region egCtxEmptyCat ⟨[], []⟩ "some-base" "disp"
      [AwsRegion.eu] Params.empty Params.empty (by decide)).2.2.2.2
    AwsRegion.eu rfl rfl rfl

/-- Counterexample for C10 as stated: at `baseModelId = "us.eu.m"` with both
variants of `m` in the catalog, resolving region `eu` throws a TypeError
(the once-stripped `eu.m` passes eligibility via a second strip but has no
map record) — zero entries are emitted instead of one per region, and the
`||` fabrication is never reached. -/
theorem C10_counterexample :
    (addCrossRegionModel egDoubleCtx ⟨[], []⟩ "us.eu.m" "disp" [AwsRegion.eu]
        Params.empty Params.empty).isThrown = true
    ∧ (addCrossRegionModel egDoubleCtx ⟨[], []⟩ "us.eu.m" "disp" [AwsRegion.eu]
        Params.empty Params.empty).state.models.length = 0
    ∧ (0 : Nat) ≠ [AwsRegion.eu].length := by
  refine ⟨rfl, rfl, by decide⟩

end LCG
